import Mathlib

/-!
Verification of the citation-resolution core of the openblog pipeline.

The definitions below are a shallow embedding of
`src/pipeline/processors/url_validator.py` (class `CitationURLValidator`)
and `src/pipeline/blog_generation/stage_04_citations.py`
(`CitationsStage._parse_sources`).  Python strings are modelled as
`List Char`; CPython's `urllib.parse.urlsplit` / `urlparse` / `urlunparse`
are modelled faithfully for the fragment of behaviour the validator
exercises; network and assisted-search (Gemini) I/O are modelled as
oracles supplied to the functions; the module-level caches are threaded
explicitly as state.
-/

set_option maxRecDepth 4000

/-- Python strings are modelled as lists of characters. -/
abbrev Str := List Char

/-- Coerce a Lean string literal to the `Str` model. -/
def str (s : String) : Str := s.data

/-- Python `\s` / `str.strip` whitespace (ASCII fragment). -/
def pyIsSpace (c : Char) : Bool :=
  c = ' ' || c = '\t' || c = '\n' || c = '\r' || c = '\x0b' || c = '\x0c'

/-- Python `str.strip()` (no argument): drop whitespace at both ends. -/
def pyStrip (s : Str) : Str :=
  ((s.dropWhile pyIsSpace).reverse.dropWhile pyIsSpace).reverse

/-- Python `str.lstrip(cs)`: drop leading characters belonging to `cs`. -/
def pyLstrip (cs : List Char) (s : Str) : Str :=
  s.dropWhile (fun c => cs.contains c)

/-- Python `str.rstrip(cs)`: drop trailing characters belonging to `cs`. -/
def pyRstrip (cs : List Char) (s : Str) : Str :=
  (s.reverse.dropWhile (fun c => cs.contains c)).reverse

/-- Python `str.strip(cs)` with an explicit character set. -/
def pyStripChars (cs : List Char) (s : Str) : Str :=
  pyRstrip cs (pyLstrip cs s)

/-- Python `str.lower()` (ASCII fragment, as exercised by the validator). -/
def pyLower (s : Str) : Str := s.map Char.toLower

/-- ASCII decimal digit test (Python `\d`, ASCII fragment). -/
def isDigitChar (c : Char) : Bool := '0' ≤ c && c ≤ '9'

/-- ASCII letter test. -/
def isAsciiAlpha (c : Char) : Bool :=
  ('a' ≤ c && c ≤ 'z') || ('A' ≤ c && c ≤ 'Z')

/-- ASCII letter-or-digit test. -/
def isAsciiAlnum (c : Char) : Bool := isAsciiAlpha c || isDigitChar c

/-- Numeric value of a digit string (Python `int` on a run of digits). -/
def natOfDigits (s : Str) : Nat :=
  s.foldl (fun n c => n * 10 + (c.toNat - 48)) 0

/-- Split a string at every occurrence of `sep` (Python `str.split(sep)` for a
one-character separator; empty pieces are kept). -/
def splitOnChar (sep : Char) (s : Str) : List Str :=
  s.splitOn sep

/-- Split at the first occurrence of `sep` (Python `str.split(sep, 1)`),
returning the part before and the part after; if `sep` is absent the whole
string is the first component. -/
def splitFirst (sep : Char) (s : Str) : Str × Str :=
  if s.contains sep then
    (s.takeWhile (fun c => c ≠ sep), (s.dropWhile (fun c => c ≠ sep)).drop 1)
  else (s, [])

/-!  ## CPython `urllib.parse` model

`urlsplit` as in CPython (3.11 line): unsafe bytes (tab/CR/LF) are removed,
a scheme is split off when the text before the first `:` is an ASCII letter
followed by letters, digits or `+-.`, a `//`-prefixed remainder yields the
netloc up to the first `/?#`, the fragment is split at the first `#`, the
query at the first `?`.  A netloc with an unmatched square bracket raises
`ValueError`, modelled as `Except.error`. -/

structure UrlSplitResult where
  scheme : Str
  netloc : Str
  path : Str
  query : Str
  fragment : Str
deriving Repr, DecidableEq

/-- Characters CPython removes from a URL before parsing. -/
def isUnsafeUrlChar (c : Char) : Bool := c = '\t' || c = '\r' || c = '\n'

/-- Scheme splitting step of CPython `urlsplit`. -/
def schemeSplit (url : Str) : Str × Str :=
  match url.findIdx? (fun c => c = ':') with
  | some i =>
    if 0 < i
        && (url.take 1).all isAsciiAlpha
        && ((url.take i).drop 1).all
            (fun c => isAsciiAlnum c || c = '+' || c = '-' || c = '.')
    then (pyLower (url.take i), url.drop (i + 1))
    else ([], url)
  | none => ([], url)

/-- Netloc splitting step of CPython `urlsplit` (input: the text after the
leading `//`). -/
def splitNetloc (rest : Str) : Str × Str :=
  (rest.takeWhile (fun c => c ≠ '/' && c ≠ '?' && c ≠ '#'),
   rest.dropWhile (fun c => c ≠ '/' && c ≠ '?' && c ≠ '#'))

/-- CPython `urllib.parse.urlsplit` (the fragment of behaviour exercised by
the validator); `Except.error` models the `ValueError` raised for a netloc
with an unmatched square bracket. -/
def pyUrlsplit (url0 : Str) : Except Unit UrlSplitResult :=
  let url := url0.filter (fun c => !isUnsafeUrlChar c)
  let sp := schemeSplit url
  let scheme := sp.1
  let rest := sp.2
  let np :=
    if (str "//").isPrefixOf rest then splitNetloc (rest.drop 2)
    else ([], rest)
  let netloc := np.1
  let rest2 := np.2
  if (netloc.contains '[' && !netloc.contains ']')
      || (netloc.contains ']' && !netloc.contains '[') then
    .error ()
  else
    let fr := splitFirst '#' rest2
    let qu := splitFirst '?' fr.1
    .ok ⟨scheme, netloc, qu.1, qu.2, fr.2⟩

structure UrlParseResult where
  scheme : Str
  netloc : Str
  path : Str
  params : Str
  query : Str
  fragment : Str
deriving Repr, DecidableEq

/-- CPython `_splitparams`: split `;params` off the last path segment. -/
def splitParams (path : Str) : Str × Str :=
  if path.contains '/' then
    let lastSlash := path.length - 1 - (path.reverse.findIdx (fun c => c = '/'))
    let tail := path.drop lastSlash
    if tail.contains ';' then
      let i := lastSlash + tail.findIdx (fun c => c = ';')
      (path.take i, path.drop (i + 1))
    else (path, [])
  else
    let i := path.findIdx (fun c => c = ';')
    (path.take i, path.drop (i + 1))

/-- CPython `urllib.parse.urlparse`: `urlsplit` plus params splitting (the
schemes used here, `http`/`https`/empty, all use params). -/
def pyUrlparse (url : Str) : Except Unit UrlParseResult := do
  let s ← pyUrlsplit url
  if s.path.contains ';' then
    let pp := splitParams s.path
    pure ⟨s.scheme, s.netloc, pp.1, pp.2, s.query, s.fragment⟩
  else
    pure ⟨s.scheme, s.netloc, s.path, [], s.query, s.fragment⟩

/-- `uses_netloc` from CPython `urllib/parse.py`. -/
def usesNetloc : List Str :=
  [[], str "ftp", str "http", str "gopher", str "nntp", str "telnet",
   str "imap", str "wais", str "file", str "mms", str "https", str "shttp",
   str "snews", str "prospero", str "rtsp", str "rtspu", str "rsync",
   str "svn", str "svn+ssh", str "sftp", str "nfs", str "git", str "git+ssh",
   str "ws", str "wss"]

/-- CPython 3.11 `urllib.parse.urlunparse` (via `urlunsplit`): the `//`
marker is emitted when there is a netloc, or when the scheme uses a netloc
and the path does not already begin with `//`
(`if netloc or (scheme and scheme in uses_netloc and url[:2] != '//')`). -/
def pyUrlunparse (scheme netloc path params query fragment : Str) : Str :=
  let url := if params ≠ [] then path ++ ';' :: params else path
  let url :=
    if netloc ≠ []
        || (scheme ≠ [] && usesNetloc.contains scheme
            && !((str "//").isPrefixOf url)) then
      let url := if url ≠ [] && !((str "/").isPrefixOf url) then '/' :: url else url
      str "//" ++ netloc ++ url
    else url
  let url := if scheme ≠ [] then scheme ++ ':' :: url else url
  let url := if query ≠ [] then url ++ '?' :: query else url
  if fragment ≠ [] then url ++ '#' :: fragment else url

deriving instance DecidableEq for Except

example : pyUrlsplit (str "https://blog.acme.com/x?a=1#f") =
    .ok ⟨str "https", str "blog.acme.com", str "/x", str "a=1", str "f"⟩ := by
  decide

example : pyUrlsplit (str "not a url") =
    .ok ⟨[], [], str "not a url", [], []⟩ := by decide

example : pyUrlsplit (str "acme.com") = .ok ⟨[], [], str "acme.com", [], []⟩ := by
  decide

example : pyUrlparse (str "https://a.com/b;p?q=2") =
    .ok ⟨str "https", str "a.com", str "/b", str "p", str "q=2", []⟩ := by decide

example : pyUrlunparse (str "https") (str "a.com") (str "/b") (str "p") (str "q=2") []
    = str "https://a.com/b;p?q=2" := by decide

/-- Python substring containment (`needle in hay`). -/
def containsSub (needle : Str) (hay : Str) : Bool :=
  match hay with
  | [] => needle.isEmpty
  | _ :: rest => needle.isPrefixOf hay || containsSub needle rest

/-!  ## Pure helpers of `CitationURLValidator` -/

/-- `FORBIDDEN_HOSTS` from `url_validator.py`. -/
def forbiddenHosts : List Str :=
  [str "vertexaisearch.cloud.google.com", str "cloud.google.com"]

/-- `_CACHE_TTL = 180` (seconds). -/
def cacheTTL : Nat := 180

/-- `_FAILED_URL_TTL = 60` (seconds). -/
def failedUrlTTL : Nat := 60

/-- `CitationURLValidator._normalize_hostname`: lower-case, strip leading
dots, strip a leading `www.`. -/
def normalizeHostname (h : Str) : Str :=
  if h = [] then []
  else
    let h := pyLstrip ['.'] (pyLower h)
    if (str "www.").isPrefixOf h then h.drop 4 else h

/-- `CitationURLValidator._is_subdomain`: `host.endswith("." + root)` with
both nonempty. -/
def isSubdomain (host root : Str) : Bool :=
  host ≠ [] && root ≠ [] && ('.' :: root).isSuffixOf host

/-- The URL a competitor entry is parsed as: entries not starting with the
literal `"http"` are prefixed with `https://`
(`comp_url = competitor if competitor.startswith("http") else f"https://{competitor}"`). -/
def competitorUrl (comp : Str) : Str :=
  if (str "http").isPrefixOf comp then comp else str "https://" ++ comp

/-- Host of one competitor entry. -/
def competitorHost (comp : Str) : Except Unit Str := do
  let cp ← pyUrlparse (competitorUrl comp)
  pure (normalizeHostname cp.netloc)

/-- The competitor loop of `_should_filter_url`: first match wins; a parse
error propagates (it is caught at the function boundary). -/
def checkCompetitors (host : Str) : List Str → Except Unit Bool
  | [] => .ok false
  | comp :: rest => do
    let ch ← competitorHost comp
    if host = ch || isSubdomain host ch then pure true
    else checkCompetitors host rest

/-- Body of `CitationURLValidator._should_filter_url` before its
`except`-handler. -/
def shouldFilterUrlBody (url companyUrl : Str) (competitors : List Str) :
    Except Unit Bool := do
  let p ← pyUrlparse url
  let host := normalizeHostname p.netloc
  if forbiddenHosts.contains host then pure true
  else
    let companyHit ←
      if companyUrl ≠ [] then do
        let cp ← pyUrlparse companyUrl
        let chost := normalizeHostname cp.netloc
        pure (host = chost || isSubdomain host chost)
      else pure false
    if companyHit then pure true
    else checkCompetitors host competitors

/-- `CitationURLValidator._should_filter_url`: any exception yields `False`
(fail-open). -/
def shouldFilterUrl (url companyUrl : Str) (competitors : List Str) : Bool :=
  match shouldFilterUrlBody url companyUrl competitors with
  | .ok b => b
  | .error _ => false

/-- Error-page substrings of `CitationURLValidator._is_error_page_url`. -/
def errorPagePatterns : List Str :=
  [str "/notfound", str "/not-found", str "/404", str "/error",
   str "notfound.aspx", str "/notfound.aspx", str "/page-not-found",
   str "/404-error"]

/-- `CitationURLValidator._is_error_page_url`. -/
def isErrorPageUrl (url : Str) : Bool :=
  let l := pyLower url
  errorPagePatterns.any (fun p => containsSub p l)

/-- `CitationURLValidator._normalize_url`, first half: strip, default the
scheme to `https://`.  (The `ValueError` that `urlparse` can raise in the
second half propagates; the helper is only called inside `try` blocks.) -/
def normalizeUrlPre (url0 : Str) : Str :=
  let url1 := pyStrip url0
  if (str "http://").isPrefixOf url1 || (str "https://").isPrefixOf url1 then url1
  else str "https://" ++ url1

/-- `CitationURLValidator._normalize_url` continued: parse the schemed
string, drop tracking query parameters, reassemble. -/
def normalizeUrl (url0 : Str) : Except Unit Str := do
  let p ← pyUrlparse (normalizeUrlPre url0)
  let keep := (splitOnChar '&' p.query).filter
    (fun q => q ≠ [] &&
      !((str "utm_").isPrefixOf (pyLower q)
        || (str "gclid").isPrefixOf (pyLower q)
        || (str "fbclid").isPrefixOf (pyLower q)))
  if keep ≠ [] then
    pure (pyUrlunparse p.scheme p.netloc p.path p.params
      (List.intercalate (str "&") keep) p.fragment)
  else
    pure (pyUrlunparse p.scheme p.netloc p.path p.params [] p.fragment)

/-- Replace every occurrence of `pat` by `rep`, scanning left to right
(Python `str.replace`); fuel-driven structural recursion, one unit of fuel
per character consumed. -/
def replaceAllGo (pat rep : Str) : Nat → Str → Str
  | 0, s => s
  | _, [] => []
  | fuel + 1, c :: rest =>
    if pat ≠ [] && pat.isPrefixOf (c :: rest) then
      rep ++ replaceAllGo pat rep fuel ((c :: rest).drop pat.length)
    else c :: replaceAllGo pat rep fuel rest

/-- Python `s.replace(pat, rep)` for nonempty `pat`. -/
def replaceAll (pat rep s : Str) : Str := replaceAllGo pat rep s.length s

/-- The homepage-ish path names rejected by `_is_specific_page_url`. -/
def homepagePathNames : List Str :=
  [[], str "index.html", str "index", str "home", str "homepage", str "default"]

/-- `CitationURLValidator._is_specific_page_url`: strip the protocol and
surrounding slashes, then require a meaningful path after the domain. -/
def isSpecificPageUrl (url : Str) : Bool :=
  if url = [] then false
  else
    let urlClean :=
      pyStripChars ['/'] (replaceAll (str "http://") [] (replaceAll (str "https://") [] url))
    if !urlClean.contains '/' then false
    else
      let parts := splitOnChar '/' urlClean
      if parts.length ≤ 1 then false
      else
        let path := List.intercalate (str "/") (parts.drop 1)
        if path = [] || homepagePathNames.contains (pyLower path) then false
        else true

/-- Match a `[<digits>]` citation marker at the head of the string,
returning the remainder (the regex `\[\d+\]` of `_build_search_query`). -/
def matchMarker : Str → Option Str
  | '[' :: t =>
    let ds := t.takeWhile isDigitChar
    let rest := t.dropWhile isDigitChar
    if ds ≠ [] then
      match rest with
      | ']' :: after => some after
      | _ => none
    else none
  | _ => none

/-- `re.sub(r"\[\d+\]", "", query)`: delete every citation marker. -/
def removeMarkersGo : Nat → Str → Str
  | 0, s => s
  | _, [] => []
  | fuel + 1, c :: rest =>
    match matchMarker (c :: rest) with
    | some after => removeMarkersGo fuel after
    | none => c :: removeMarkersGo fuel rest

/-- `re.sub(r"\[\d+\]", "", query)` over the whole string. -/
def removeMarkers (s : Str) : Str := removeMarkersGo s.length s

/-- `CitationURLValidator._build_search_query`: strip, remove citation
markers, truncate to 100 characters with an ellipsis. -/
def buildSearchQuery (title : Str) : Str :=
  let q := removeMarkers (pyStrip title)
  if 100 < q.length then q.take 100 ++ str "..." else q

example : shouldFilterUrl (str "https://blog.acme.com/x") (str "https://acme.com") [] = true := by
  decide

example : shouldFilterUrl (str "https://notacme.com") (str "https://acme.com") [] = false := by
  decide

example : shouldFilterUrl (str "not a url") (str "https://acme.com") [] = false := by
  decide

example : shouldFilterUrl (str "not a url") (str "acme.com") [] = true := by
  decide

example : normalizeUrl (str "acme.com/a?utm_source=x&b=1") =
    .ok (str "https://acme.com/a?b=1") := by decide

example : normalizeUrl (str "/path") = .ok (str "https:///path") := by decide

example : isSpecificPageUrl (str "https://acme.com/") = false := by decide

example : isSpecificPageUrl (str "https://acme.com/blog/post") = true := by decide

example : buildSearchQuery (str " [12] AI research ") = str " AI research" := by decide

/-!  ## URL status resolver (`_check_url_status`) with its cache

The module-level dict `_URL_STATUS_CACHE : url -> (is_valid, final_url,
timestamp)` is modelled as an association list where the newest binding
shadows older ones (Python dict assignment overwrites).  `time.time()` is
modelled as a `Nat` argument `now`.  HTTP I/O is an oracle: `head` is the
outcome of `http_client.head(url)`, `get` the outcome of
`http_client.get(final_url)` in the redirect branch. -/

abbrev StatusCache := List (Str × (Bool × Str × Nat))

/-- Lookup in the status cache (`url in _URL_STATUS_CACHE`). -/
def lookupS (url : Str) (c : StatusCache) : Option (Bool × Str × Nat) :=
  match c.find? (fun e => e.1 == url) with
  | some e => some e.2
  | none => none

/-- Cache write (`_URL_STATUS_CACHE[url] = v`). -/
def insertS (url : Str) (v : Bool × Str × Nat) (c : StatusCache) : StatusCache :=
  (url, v) :: c

/-- Transport-level exceptions of the probe: `asyncio.TimeoutError`,
`httpx.TimeoutException`, `httpx.RequestError`, and the catch-all
`Exception` branch. -/
inductive TransportErr where
  | timeout
  | httpTimeout
  | reqError
  | otherExn
deriving Repr, DecidableEq

/-- Outcome of the HEAD probe. -/
inductive HeadOutcome where
  | resp (status : Nat) (finalUrl : Str)
  | err (e : TransportErr)
deriving Repr, DecidableEq

/-- Outcome of the follow-up GET in the redirect branch (only
`asyncio.TimeoutError` is caught there; any other error propagates to the
outer handlers). -/
inductive GetOutcome where
  | resp (status : Nat) (finalUrl : Str)
  | timeout
  | err
deriving Repr, DecidableEq

/-- The network, as an oracle mapping a URL to the outcome of probing it. -/
structure NetOracle where
  head : Str → HeadOutcome
  get : Str → GetOutcome

/-- The redirect statuses followed by `_check_url_status`. -/
def redirectStatuses : List Nat := [301, 302, 303, 307, 308]

/-- Is the cache entry for `url` fresh at time `now`?  (`_CACHE_TTL` for a
valid outcome, `_FAILED_URL_TTL` for a failed one.) -/
def cacheFresh (now : Nat) (cache : StatusCache) (url : Str) : Bool :=
  match lookupS url cache with
  | some (v, _, ts) => now - ts < (if v then cacheTTL else failedUrlTTL)
  | none => false

/-- Result of one `_check_url_status` call: the returned pair, the updated
cache, and how many HTTP requests were issued. -/
structure CheckOut where
  valid : Bool
  finalUrl : Str
  cache : StatusCache
  net : Nat
deriving Repr, DecidableEq

/-- The probe part of `_check_url_status` (the `try:` block after the cache
lookup). -/
def checkUrlStatusProbe (o : NetOracle) (now : Nat) (cache : StatusCache)
    (url : Str) : CheckOut :=
  match o.head url with
  | .err _ => ⟨false, url, cache, 1⟩
  | .resp status f =>
    if status = 200 then
      if isErrorPageUrl f then ⟨false, f, insertS url (false, f, now) cache, 1⟩
      else ⟨true, f, insertS url (true, f, now) cache, 1⟩
    else if status = 404 then ⟨false, f, insertS url (false, f, now) cache, 1⟩
    else if redirectStatuses.contains status then
      match o.get f with
      | .resp s2 g =>
        if s2 = 200 && !isErrorPageUrl g then ⟨true, g, insertS url (true, g, now) cache, 2⟩
        else ⟨false, g, insertS url (false, g, now) cache, 2⟩
      | .timeout => ⟨false, f, insertS url (false, f, now) cache, 2⟩
      | .err => ⟨false, url, cache, 2⟩
    else ⟨false, f, insertS url (false, f, now) cache, 1⟩

/-- `CitationURLValidator._check_url_status`: cache lookup with asymmetric
TTLs, then the probe. -/
def checkUrlStatus (o : NetOracle) (now : Nat) (cache : StatusCache)
    (url : Str) : CheckOut :=
  match lookupS url cache with
  | some (v, f, ts) =>
    if now - ts < (if v then cacheTTL else failedUrlTTL) then ⟨v, f, cache, 0⟩
    else checkUrlStatusProbe o now cache url
  | none => checkUrlStatusProbe o now cache url

/-!  ## Authority fallback (`_try_authority_fallback`) -/

abbrev AuthorityCache := List (Str × (Option (Str × Str) × Nat))

/-- Lookup in `_AUTHORITY_CACHE`. -/
def lookupA (key : Str) (c : AuthorityCache) : Option (Option (Str × Str) × Nat) :=
  match c.find? (fun e => e.1 == key) with
  | some e => some e.2
  | none => none

/-- Cache write (`_AUTHORITY_CACHE[key] = v`). -/
def insertA (key : Str) (v : Option (Str × Str) × Nat) (c : AuthorityCache) :
    AuthorityCache :=
  (key, v) :: c

/-- The static `authority_patterns` table of `_try_authority_fallback`:
keyword sets and their ordered (url, source_name) candidates. -/
def authorityPatterns : List (List Str × List (Str × Str)) :=
  [([str "business", str "finance", str "economy", str "revenue", str "profit",
     str "market", str "enterprise"],
    [(str "https://www.investopedia.com/", str "Investopedia"),
     (str "https://hbr.org/", str "Harvard Business Review"),
     (str "https://www.census.gov/", str "U.S. Census Bureau"),
     (str "https://www.brookings.edu/", str "Brookings Institution")]),
   ([str "ai", str "artificial intelligence", str "machine learning",
     str "technology", str "software", str "automation"],
    [(str "https://www.nist.gov/", str "NIST"),
     (str "https://www.nature.com/", str "Nature"),
     (str "https://techcrunch.com/", str "TechCrunch"),
     (str "https://www.ieee.org/", str "IEEE")]),
   ([str "health", str "medical", str "healthcare", str "patient",
     str "treatment", str "clinical"],
    [(str "https://www.who.int/", str "World Health Organization"),
     (str "https://www.nejm.org/", str "New England Journal of Medicine"),
     (str "https://www.nih.gov/", str "National Institutes of Health"),
     (str "https://jamanetwork.com/", str "JAMA Network")]),
   ([str "manufacturing", str "industry", str "production", str "factory",
     str "industrial"],
    [(str "https://www.manufacturing.net/", str "Manufacturing.net"),
     (str "https://www.industryweek.com/", str "IndustryWeek"),
     (str "https://www.nist.gov/", str "NIST")]),
   ([str "marketing", str "advertising", str "digital", str "content",
     str "email", str "automation", str "campaign"],
    [(str "https://hbr.org/", str "Harvard Business Review"),
     (str "https://www.statista.com/", str "Statista"),
     (str "https://techcrunch.com/", str "TechCrunch"),
     (str "https://www.pewresearch.org/", str "Pew Research Center")]),
   ([str "research", str "study", str "report", str "data", str "statistics"],
    [(str "https://www.pewresearch.org/", str "Pew Research Center"),
     (str "https://www.census.gov/", str "U.S. Census Bureau"),
     (str "https://www.statista.com/", str "Statista"),
     (str "https://www.brookings.edu/", str "Brookings")])]

/-- Inner loop of `_try_authority_fallback` over one pattern's candidate
URLs: skip filtered candidates, probe the rest, first valid one wins. -/
def tryPatternUrls (o : NetOracle) (now : Nat) (companyUrl : Str)
    (competitors : List Str) (searchQuery : Str) :
    List (Str × Str) → StatusCache → Nat →
    Option (Str × Str) × StatusCache × Nat
  | [], sc, n => (none, sc, n)
  | (baseUrl, sourceName) :: rest, sc, n =>
    if shouldFilterUrl baseUrl companyUrl competitors then
      tryPatternUrls o now companyUrl competitors searchQuery rest sc n
    else
      let c := checkUrlStatus o now sc baseUrl
      if c.valid then
        (some (c.finalUrl, searchQuery.take 60 ++ str " - " ++ sourceName),
         c.cache, n + c.net)
      else tryPatternUrls o now companyUrl competitors searchQuery rest c.cache (n + c.net)

/-- Outer loop of `_try_authority_fallback` over the pattern table: every
pattern whose keyword set matches the lowered query is tried in order. -/
def tryPatterns (o : NetOracle) (now : Nat) (companyUrl : Str)
    (competitors : List Str) (queryLower searchQuery : Str) :
    List (List Str × List (Str × Str)) → StatusCache → Nat →
    Option (Str × Str) × StatusCache × Nat
  | [], sc, n => (none, sc, n)
  | (keywords, urls) :: rest, sc, n =>
    if keywords.any (fun kw => containsSub kw queryLower) then
      match tryPatternUrls o now companyUrl competitors searchQuery urls sc n with
      | (some r, sc2, n2) => (some r, sc2, n2)
      | (none, sc2, n2) =>
        tryPatterns o now companyUrl competitors queryLower searchQuery rest sc2 n2
    else tryPatterns o now companyUrl competitors queryLower searchQuery rest sc n

/-- Result of `_try_authority_fallback`: the optional alternative, both
caches, and the number of HTTP requests issued. -/
structure FallbackOut where
  result : Option (Str × Str)
  scache : StatusCache
  acache : AuthorityCache
  net : Nat
deriving Repr, DecidableEq

/-- `CitationURLValidator._try_authority_fallback`: check `_AUTHORITY_CACHE`
first (key: first 100 chars of the query), otherwise probe the authority
table and cache the result — including a negative one. -/
def tryAuthorityFallback (o : NetOracle) (now : Nat) (sc : StatusCache)
    (ac : AuthorityCache) (searchQuery companyUrl : Str)
    (competitors : List Str) : FallbackOut :=
  let key := searchQuery.take 100
  let probe : FallbackOut :=
    let queryLower := pyLower searchQuery
    match tryPatterns o now companyUrl competitors queryLower searchQuery
        authorityPatterns sc 0 with
    | (some r, sc2, n) => ⟨some r, sc2, insertA key (some r, now) ac, n⟩
    | (none, sc2, n) => ⟨none, sc2, insertA key (none, now) ac, n⟩
  match lookupA key ac with
  | some (res, ts) => if now - ts < cacheTTL then ⟨res, sc, ac, 0⟩ else probe
  | none => probe

/-!  ## Alternative discovery (`_find_alternative_url`)

The Gemini response text is opaque free text; the function only observes it
through three parsers: the structured-JSON regex + `json.loads`
(`structured`), the URL-token regex of `_extract_urls_from_response`
(`rawUrls`), and `_extract_title_from_response` (`titleFor`).  The response
is therefore modelled at that boundary.  JSON field access with `.get` is
modelled with `Option`; Python truthiness of the `url` string and the
`verified` value is spelled out at each use site. -/

/-- The parsed structured-JSON object `{url, title, verified}`. -/
structure StructJson where
  url : Option Str
  title : Option Str
  verified : Option Bool

/-- A Gemini response, observed through the three parsers applied to it. -/
structure AssistResponse where
  structured : Option StructJson
  rawUrls : List Str
  titleFor : Str → Option Str

/-- Outcome of the Gemini call inside `_find_alternative_url`:
`asyncio.TimeoutError`, any other exception, or a response text. -/
inductive GeminiOutcome where
  | timeout
  | failure
  | ok (resp : AssistResponse)

/-- Result of `_find_alternative_url`: the optional `(url, title)`, both
caches, the number of Gemini calls issued, and the number of HTTP
requests. -/
structure AltOut where
  result : Option (Str × Str)
  scache : StatusCache
  acache : AuthorityCache
  geminiCalls : Nat
  net : Nat
deriving Repr, DecidableEq

/-- How the structured-JSON branch of `_find_alternative_url` ends: an
accepted alternative, the explicit not-found sentinel (`url == "" and
verified is False`, returning `None` at once), or a fall-through to the
regex scan. -/
inductive StructStep where
  | accept (r : Str × Str) (sc : StatusCache) (n : Nat)
  | sentinel
  | fallthrough (sc : StatusCache) (n : Nat)

/-- The structured-JSON branch of `_find_alternative_url`: a result marked
verified with a truthy url is normalized, domain-filtered, and its status
re-checked; it is accepted only if it passes both. -/
def structuredStep (o : NetOracle) (now : Nat) (sc : StatusCache)
    (title companyUrl : Str) (competitors : List Str) :
    Option StructJson → StructStep
  | some j =>
    if j.verified = some true
        && (match j.url with | some u => !u.isEmpty | none => false) then
      let candTitle := j.title.getD title
      match normalizeUrl (pyStrip (j.url.getD [])) with
      | .error _ => .fallthrough sc 0
      | .ok cu =>
        if shouldFilterUrl cu companyUrl competitors then .fallthrough sc 0
        else
          let c := checkUrlStatus o now sc cu
          if c.valid then .accept (c.finalUrl, candTitle) c.cache c.net
          else .fallthrough c.cache c.net
    else if j.url = some [] && j.verified = some false then .sentinel
    else .fallthrough sc 0
  | none => .fallthrough sc 0

/-- The regex-extraction fallback loop of `_find_alternative_url`: each
nonempty candidate is normalized, domain-filtered, status-checked; the first
one passing both wins.  A `ValueError` from normalization propagates to the
outer handler, which returns `None`. -/
def regexScan (o : NetOracle) (now : Nat) (titleFor : Str → Option Str)
    (title companyUrl : Str) (competitors : List Str) :
    List Str → StatusCache → Nat → Option (Str × Str) × StatusCache × Nat
  | [], sc, n => (none, sc, n)
  | cand :: rest, sc, n =>
    if cand.isEmpty then
      regexScan o now titleFor title companyUrl competitors rest sc n
    else
      match normalizeUrl cand with
      | .error _ => (none, sc, n)
      | .ok cn =>
        if shouldFilterUrl cn companyUrl competitors then
          regexScan o now titleFor title companyUrl competitors rest sc n
        else
          let c := checkUrlStatus o now sc cn
          if c.valid then
            let metaTitle :=
              match titleFor cn with
              | some t => if t.isEmpty then title else t
              | none => title
            (some (c.finalUrl, metaTitle), c.cache, n + c.net)
          else
            regexScan o now titleFor title companyUrl competitors rest c.cache (n + c.net)

/-- `CitationURLValidator._find_alternative_url`: build the query, issue the
Gemini call, fall back to `_try_authority_fallback` on timeout/error,
otherwise run the structured branch and then the regex scan. -/
def findAlternativeUrl (o : NetOracle) (now : Nat) (sc : StatusCache)
    (ac : AuthorityCache) (gem : GeminiOutcome) (title companyUrl : Str)
    (competitors : List Str) : AltOut :=
  let searchQuery := buildSearchQuery title
  match gem with
  | .timeout =>
    let f := tryAuthorityFallback o now sc ac searchQuery companyUrl competitors
    ⟨f.result, f.scache, f.acache, 1, f.net⟩
  | .failure =>
    let f := tryAuthorityFallback o now sc ac searchQuery companyUrl competitors
    ⟨f.result, f.scache, f.acache, 1, f.net⟩
  | .ok resp =>
    match structuredStep o now sc title companyUrl competitors resp.structured with
    | .accept r sc2 n => ⟨some r, sc2, ac, 1, n⟩
    | .sentinel => ⟨none, sc, ac, 1, 0⟩
    | .fallthrough sc2 n =>
      let rs := regexScan o now resp.titleFor title companyUrl competitors
        resp.rawUrls sc2 n
      ⟨rs.1, rs.2.1, ac, 1, rs.2.2⟩

/-!  ## Specific-page resolver (`_find_specific_page_url`) -/

/-- The parsed `{url, verified}` object of the specific-page search
response. -/
structure SpecJson where
  url : Option Str
  verified : Option Bool

/-- `CitationURLValidator._find_specific_page_url`: extract the domain,
build the `<title> site:<domain>` query, ask the search collaborator
(modelled as an oracle from the query to the parsed JSON, `none` covering a
missing/ill-formed JSON object and any call failure), and accept a verified
truthy url iff it passes `_is_specific_page_url`.  The domain extraction
`parsed.netloc or domain_url.replace(…).split('/')[0]` is split out first. -/
def specificPageDomain (domainUrl : Str) (p : UrlParseResult) : Str :=
  if p.netloc ≠ [] then p.netloc
  else
    (splitOnChar '/'
      (replaceAll (str "http://") [] (replaceAll (str "https://") [] domainUrl))).headD []

/-- `CitationURLValidator._find_specific_page_url` continued: the full
resolver. -/
def findSpecificPageUrl (hasClient : Bool) (oracle : Str → Option SpecJson)
    (title domainUrl : Str) : Option Str :=
  match pyUrlparse domainUrl with
  | .error _ => none
  | .ok p =>
    let searchQuery := title ++ str " site:" ++ specificPageDomain domainUrl p
    if !hasClient then none
    else
      match oracle searchQuery with
      | none => none
      | some j =>
        if j.verified = some true
            && (match j.url with | some u => !u.isEmpty | none => false) then
          let foundUrl := j.url.getD []
          if isSpecificPageUrl foundUrl then some foundUrl else none
        else none

/-!  ## Citation record and the validation orchestrator -/

/-- Modelled from the spec: the Citation Record of §3, `{number: positive
integer, url: string, title: string}` together with the lifecycle marker
("a citation that cannot be validated is retained with its original
(possibly dead) URL and a `valid=false` marker").  The repository's
`pipeline/models/citation.py` is not among the sources; only its callers
are, and they read and write exactly the `number`, `url` and `title`
attributes. -/
structure Citation where
  number : Nat
  url : Str
  title : Str
  valid : Bool := true
deriving Repr, DecidableEq

instance : Inhabited Citation := ⟨⟨0, [], [], true⟩⟩

/-- An uncaught Python exception, abstractly. -/
inductive PyExn where
  | exn
deriving Repr, DecidableEq

/-- The per-citation work `validate_citation_url` performs (network and
search I/O throughout), as an oracle: it either returns the
`(is_valid, final_url, final_title)` triple or raises. -/
abbrev WorkFn := Citation → Except PyExn (Bool × Str × Str)

/-- The unit of work `validate_single_citation` defined inside
`validate_all_citations`: on success the citation's `url`/`title` are
overwritten with the returned values (the returned `is_valid` flag is
discarded); any exception is caught and the original citation returned
unchanged.  The unit itself therefore never raises, which the `Except`
result type records by always being `.ok`. -/
def validateSingleCitation (work : WorkFn) (c : Citation) : Except PyExn Citation :=
  match work c with
  | .ok (_, u, t) => .ok { c with url := u, title := t }
  | .error _ => .ok c

/-- One step of `asyncio.gather`'s bookkeeping: when task `i` completes,
its result is stored at slot `i` of the result array, whatever the
completion order. -/
def runSchedule (res : Nat → α) (order : List Nat) (slots : List (Option α)) :
    List (Option α) :=
  order.foldl (fun acc i => acc.set i (some (res i))) slots

/-- `asyncio.gather(*tasks, return_exceptions=True)` over `n` tasks whose
completion order is `order`: every slot starts empty and is filled when its
task completes. -/
def gatherByIndex (res : Nat → α) (n : Nat) (order : List Nat) : List (Option α) :=
  runSchedule res order (List.replicate n none)

/-- `CitationURLValidator.validate_all_citations`: fan out one unit of work
per citation, gather by slot, and map any exception value (and, vacuously,
any unfilled slot) back to the original citation at that index. -/
def validateAllCitations (work : WorkFn) (citations : List Citation)
    (order : List Nat) : List Citation :=
  if citations.isEmpty then []
  else
    let raw := gatherByIndex
      (fun i => validateSingleCitation work (citations.getD i default))
      citations.length order
    (List.range citations.length).map (fun i =>
      match raw.getD i none with
      | some (.ok c) => c
      | some (.error _) => citations.getD i default
      | none => citations.getD i default)

/-!  ## Citation parser (`CitationsStage._parse_sources`)

The three regexes of `_parse_sources` are realised as character-level
matchers with the exact backtracking semantics of `re.match`/`re.search`/
`re.sub` on their patterns. -/

/-- Match the regex fragment `https?://` at the head of the string,
returning the matched scheme and the remainder. -/
def urlSchemePrefix (s : Str) : Option (Str × Str) :=
  if (str "https://").isPrefixOf s then some (str "https://", s.drop 8)
  else if (str "http://").isPrefixOf s then some (str "http://", s.drop 7)
  else none

/-- Match `(?:\s+[–\-]\s+|\s+)(.+)` against the whole remainder of a line,
returning group 1: en-dash/hyphen separator surrounded by whitespace when
present, else plain whitespace; the title is the (nonempty) rest, with
`re`'s backtracking letting a trailing whitespace character serve as the
title when nothing else remains. -/
def matchSepTitle (r5 : Str) : Option Str :=
  let ws := r5.takeWhile pyIsSpace
  let r6 := r5.dropWhile pyIsSpace
  if ws = [] then none
  else
    let branch1 : Option Str :=
      match r6 with
      | d :: r7 =>
        if d = '–' || d = '-' then
          let ws2 := r7.takeWhile pyIsSpace
          let r8 := r7.dropWhile pyIsSpace
          if ws2 = [] then none
          else if r8 ≠ [] then some r8
          else if 2 ≤ ws2.length then some [ws2.getLastD ' ']
          else none
        else none
      | [] => none
    match branch1 with
    | some t => some t
    | none =>
      if r6 ≠ [] then some r6
      else if 2 ≤ ws.length then some [ws.getLastD ' ']
      else none

/-- `re.match(r"\[(\d+)\]:\s*(https?://[^\s]+?)(?:\s+[–\-]\s+|\s+)(.+)", line)`:
the primary citation-line pattern. -/
def matchCitationLine (line : Str) : Option (Nat × Str × Str) :=
  match line with
  | '[' :: t =>
    let ds := t.takeWhile isDigitChar
    match t.dropWhile isDigitChar with
    | ']' :: ':' :: r2 =>
      if ds = [] then none
      else
        let r3 := r2.dropWhile pyIsSpace
        match urlSchemePrefix r3 with
        | some (sch, r4) =>
          let run := r4.takeWhile (fun c => !pyIsSpace c)
          let r5 := r4.dropWhile (fun c => !pyIsSpace c)
          if run = [] then none
          else
            match matchSepTitle r5 with
            | some title => some (natOfDigits ds, sch ++ run, title)
            | none => none
        | none => none
    | _ => none
  | _ => none

/-- `re.match(r"\[(\d+)\]:\s*(https?://[^\s]+)\s+(.+)", line)`: the
plain-whitespace-separator retry. -/
def matchCitationLine2 (line : Str) : Option (Nat × Str × Str) :=
  match line with
  | '[' :: t =>
    let ds := t.takeWhile isDigitChar
    match t.dropWhile isDigitChar with
    | ']' :: ':' :: r2 =>
      if ds = [] then none
      else
        let r3 := r2.dropWhile pyIsSpace
        match urlSchemePrefix r3 with
        | some (sch, r4) =>
          let run := r4.takeWhile (fun c => !pyIsSpace c)
          let r5 := r4.dropWhile (fun c => !pyIsSpace c)
          if run = [] then none
          else
            let ws := r5.takeWhile pyIsSpace
            let r6 := r5.dropWhile pyIsSpace
            if ws = [] then none
            else if r6 ≠ [] then some (natOfDigits ds, sch ++ run, r6)
            else if 2 ≤ ws.length then
              some (natOfDigits ds, sch ++ run, [ws.getLastD ' '])
            else none
        | none => none
    | _ => none
  | _ => none

/-- `re.match(r"\[(\d+)\]:\s*(.+)", line)`: the free-text fallback. -/
def matchSimpleLine (line : Str) : Option (Nat × Str) :=
  match line with
  | '[' :: t =>
    let ds := t.takeWhile isDigitChar
    match t.dropWhile isDigitChar with
    | ']' :: ':' :: r2 =>
      if ds = [] then none
      else
        let r3 := r2.dropWhile pyIsSpace
        if r3 ≠ [] then some (natOfDigits ds, r3)
        else if r2 ≠ [] then some (natOfDigits ds, [r2.getLastD ' '])
        else none
    | _ => none
  | _ => none

/-- Character class `[^\s–\-\)\]\}]` of the embedded-URL search pattern. -/
def urlTokenChar (c : Char) : Bool :=
  !pyIsSpace c && c ≠ '–' && c ≠ '-' && c ≠ ')' && c ≠ ']' && c ≠ '}'

/-- `re.search(r"https?://[^\s–\-\)\]\}]+", content)`: leftmost embedded URL
token. -/
def searchUrlGo : Nat → Str → Option Str
  | 0, _ => none
  | _, [] => none
  | fuel + 1, c :: rest =>
    match urlSchemePrefix (c :: rest) with
    | some (sch, r) =>
      let run := r.takeWhile urlTokenChar
      if run ≠ [] then some (sch ++ run) else searchUrlGo fuel rest
    | none => searchUrlGo fuel rest

/-- Leftmost embedded URL token of a content string. -/
def searchUrl (content : Str) : Option Str := searchUrlGo content.length content

/-- `re.sub(r"https?://[^\s]+\s*[–\-]?\s*", "", content)`: delete every URL
token together with trailing whitespace and an optional dash. -/
def subUrlPatGo : Nat → Str → Str
  | 0, s => s
  | _, [] => []
  | fuel + 1, c :: rest =>
    match urlSchemePrefix (c :: rest) with
    | some (_, r) =>
      let run := r.takeWhile (fun c => !pyIsSpace c)
      if run = [] then c :: subUrlPatGo fuel rest
      else
        let r2 := (r.dropWhile (fun c => !pyIsSpace c)).dropWhile pyIsSpace
        match r2 with
        | d :: r3 =>
          if d = '–' || d = '-' then subUrlPatGo fuel (r3.dropWhile pyIsSpace)
          else subUrlPatGo fuel r2
        | [] => []
    | none => c :: subUrlPatGo fuel rest

/-- The URL-removal substitution over a whole content string. -/
def subUrlPat (content : Str) : Str := subUrlPatGo content.length content

/-- The trailing punctuation stripped from an embedded URL
(`url_match.group(0).rstrip('.,;:!?)')`). -/
def urlRstripChars : List Char := ['.', ',', ';', ':', '!', '?', ')']

/-- Parse one stripped source line into a citation, trying the three
patterns in the priority order of `_parse_sources`; `Citation` construction
is total in the model (the record has no further validation among the
sources). -/
def parseSourceLine (line : Str) : Option Citation :=
  match matchCitationLine line with
  | some (n, u, t) => some ⟨n, pyStrip u, pyStrip t, true⟩
  | none =>
    match matchCitationLine2 line with
    | some (n, u, t) => some ⟨n, pyStrip u, pyStrip t, true⟩
    | none =>
      match matchSimpleLine line with
      | some (n, content) =>
        match searchUrl content with
        | some raw =>
          let url := pyRstrip urlRstripChars raw
          let t0 := pyStrip (subUrlPat content)
          let title := if t0 = [] then url else t0
          if (str "/").isPrefixOf url then none
          else some ⟨n, url, title, true⟩
        | none => none
      | none => none

/-- `CitationsStage._parse_sources`: split into lines, strip each, skip
empties, parse, then renumber the parsed citations sequentially from 1. -/
def parseSources (text : Str) : List Citation :=
  let lines := splitOnChar '\n' (pyStrip text)
  let cites := lines.foldl (fun acc line =>
    let line := pyStrip line
    if line = [] then acc
    else
      match parseSourceLine line with
      | some c => acc ++ [c]
      | none => acc) []
  cites.mapIdx (fun i c => { c with number := i + 1 })

example : parseSources (str "[5]: http://a.com – A\n[9]: http://b.com – B") =
    [⟨1, str "http://a.com", str "A", true⟩,
     ⟨2, str "http://b.com", str "B", true⟩] := by decide

example : parseSources (str "prose line\n[2]: see https://x.com/articles study") =
    [⟨1, str "https://x.com/articles", str "see study", true⟩] := by decide

/-!  ## Claim C6: parser renumbering -/

theorem renumber_map_number (l : List Citation) :
    (l.mapIdx (fun i c => { c with number := i + 1 })).map Citation.number
      = List.range' 1 l.length := by
  apply List.ext_getElem
  · simp
  · intro i h1 h2
    simp [List.getElem_mapIdx, List.getElem_range'_1]
    omega

/-- C6: for every sources text, the parser's citations come out numbered
contiguously from 1 in list order, whatever numbering the input lines carry;
in particular a line numbered `[5]` followed by one numbered `[9]` parses to
records numbered 1 and 2 in that order. -/
theorem parseSources_renumbered :
    (∀ text : Str, (parseSources text).map Citation.number
      = List.range' 1 (parseSources text).length) ∧
    (parseSources (str "[5]: http://a.com – A\n[9]: http://b.com – B")).map
        (fun c => (c.number, c.url)) =
      [(1, str "http://a.com"), (2, str "http://b.com")] := by
  constructor
  · intro text
    have key : ∀ cites : List Citation,
        ((cites.mapIdx (fun i c => { c with number := i + 1 })).map Citation.number)
          = List.range' 1 ((cites.mapIdx (fun i c => { c with number := i + 1 })).length) := by
      intro cites
      rw [renumber_map_number]
      simp
    exact key _
  · decide

/-!  ## Claims C1, C2: the validation orchestrator -/

theorem runSchedule_cons (res : Nat → α) (i : Nat) (rest : List Nat)
    (slots : List (Option α)) :
    runSchedule res (i :: rest) slots
      = runSchedule res rest (slots.set i (some (res i))) := rfl

theorem runSchedule_length (res : Nat → α) (order : List Nat)
    (slots : List (Option α)) :
    (runSchedule res order slots).length = slots.length := by
  induction order generalizing slots with
  | nil => rfl
  | cons i rest ih => rw [runSchedule_cons, ih, List.length_set]

theorem runSchedule_getElem? (res : Nat → α) (order : List Nat)
    (slots : List (Option α)) (j : Nat) :
    (runSchedule res order slots)[j]? =
      if j ∈ order ∧ j < slots.length then some (some (res j)) else slots[j]? := by
  induction order generalizing slots with
  | nil => simp [runSchedule]
  | cons i rest ih =>
    rw [runSchedule_cons, ih, List.length_set]
    by_cases hjr : j ∈ rest
    · by_cases hlen : j < slots.length
      · simp [hjr, hlen]
      · have h1 : slots[j]? = none := List.getElem?_eq_none (by omega)
        have h2 : (slots.set i (some (res i)))[j]? = none :=
          List.getElem?_eq_none (by rw [List.length_set]; omega)
        simp [hjr, hlen, h1, h2]
    · by_cases hij : i = j
      · subst hij
        by_cases hlen : i < slots.length
        · simp [hjr, hlen, List.getElem?_set_eq_of_lt _ hlen]
        · have h1 : slots[i]? = none := List.getElem?_eq_none (by omega)
          have h2 : (slots.set i (some (res i)))[i]? = none :=
            List.getElem?_eq_none (by rw [List.length_set]; omega)
          simp [hjr, hlen, h1, h2]
      · simp [hjr, hij, List.getElem?_set_ne hij]
        rw [if_neg (fun h => hij h.1.symm)]

theorem gatherByIndex_length (res : Nat → α) (n : Nat) (order : List Nat) :
    (gatherByIndex res n order).length = n := by
  unfold gatherByIndex
  rw [runSchedule_length, List.length_replicate]

theorem gatherByIndex_getElem? (res : Nat → α) (n : Nat) (order : List Nat)
    (j : Nat) (hj : j < n) (hmem : j ∈ order) :
    (gatherByIndex res n order)[j]? = some (some (res j)) := by
  unfold gatherByIndex
  rw [runSchedule_getElem?, List.length_replicate, if_pos ⟨hmem, hj⟩]

theorem validateSingleCitation_isOk (work : WorkFn) (c : Citation) :
    ∃ c2, validateSingleCitation work c = .ok c2 := by
  unfold validateSingleCitation
  cases work c with
  | ok v => exact ⟨_, rfl⟩
  | error e => exact ⟨_, rfl⟩

theorem validateAll_getElem?_aux (work : WorkFn) (citations : List Citation)
    (order : List Nat) (hne : ¬citations.isEmpty = true) (i : Nat)
    (h : i < citations.length) (hmem : i ∈ order) (c2 : Citation)
    (hc2 : validateSingleCitation work citations[i] = .ok c2) :
    (validateAllCitations work citations order)[i]? = some c2 := by
  simp only [validateAllCitations, if_neg hne]
  rw [List.getElem?_map, List.getElem?_range h]
  simp only [Option.map_some']
  have hgd : citations.getD i default = citations[i] := by
    rw [List.getD_eq_getElem?_getD, List.getElem?_eq_getElem h]
    rfl
  rw [List.getD_eq_getElem?_getD, gatherByIndex_getElem? _ _ _ i h hmem]
  simp only [Option.getD_some]
  rw [hgd, hc2]

/-- C1: for every citation list, exclusion set (abstracted into the
per-citation work function) and completion order covering every task,
`validate_all_citations` returns exactly as many records as it was given,
and the record at output position `i` is the unit-of-work result for the
input citation at position `i` (in particular it carries that citation's
number), regardless of how many units fail and of the completion order. -/
theorem validateAll_length_and_order (work : WorkFn) (citations : List Citation)
    (order : List Nat) (hcover : ∀ i, i < citations.length → i ∈ order) :
    (validateAllCitations work citations order).length = citations.length ∧
    ∀ i, (h : i < citations.length) →
      ∃ c, validateSingleCitation work citations[i] = .ok c ∧
        (validateAllCitations work citations order)[i]? = some c ∧
        c.number = citations[i].number := by
  by_cases hemp : citations.isEmpty
  · rw [List.isEmpty_iff] at hemp
    subst hemp
    exact ⟨rfl, fun i h => absurd h (by simp)⟩
  · constructor
    · simp only [validateAllCitations, if_neg hemp]
      simp
    · intro i h
      obtain ⟨c2, hc2⟩ := validateSingleCitation_isOk work citations[i]
      refine ⟨c2, hc2, validateAll_getElem?_aux work citations order hemp i h (hcover i h) c2 hc2, ?_⟩
      revert hc2
      unfold validateSingleCitation
      cases work citations[i] with
      | ok v => intro hc2; cases hc2; rfl
      | error e => intro hc2; cases hc2; rfl

/-- Concrete citations for exercising the orchestrator theorems. -/
def witCitations : List Citation :=
  [⟨1, str "https://a.example/x", str "A", true⟩,
   ⟨2, str "https://b.example/404", str "B", true⟩]

/-- Concrete per-citation work: citation 1 succeeds with a new URL and
title, citation 2 raises. -/
def witWork : WorkFn := fun c =>
  if c.number = 1 then .ok (true, str "https://a.example/final", str "A2")
  else .error .exn

theorem c1_witness :
    (validateAllCitations witWork witCitations [1, 0]).length = 2 ∧
    (validateAllCitations witWork witCitations [1, 0])[0]? =
      some ⟨1, str "https://a.example/final", str "A2", true⟩ ∧
    (validateAllCitations witWork witCitations [1, 0])[1]? =
      some ⟨2, str "https://b.example/404", str "B", true⟩ := by
  have h := validateAll_length_and_order witWork witCitations [1, 0]
    (by intro i hi; have hi2 : i < 2 := hi; interval_cases i <;> decide)
  refine ⟨h.1, ?_, ?_⟩
  · obtain ⟨c, hc, hout, _⟩ := h.2 0 (by decide)
    have h2 : validateSingleCitation witWork witCitations[0] =
        .ok ⟨1, str "https://a.example/final", str "A2", true⟩ := by decide
    rw [h2] at hc
    injection hc with h3
    rw [← h3] at hout
    exact hout
  · obtain ⟨c, hc, hout, _⟩ := h.2 1 (by decide)
    have h2 : validateSingleCitation witWork witCitations[1] =
        .ok ⟨2, str "https://b.example/404", str "B", true⟩ := by decide
    rw [h2] at hc
    injection hc with h3
    rw [← h3] at hout
    exact hout

/-- C2 amended: any exception raised inside a single citation's unit of work
is caught at the unit boundary and the original citation is returned with
its URL and title unchanged — the batch completes normally with one record
per input.  (The unit discards the `is_valid` flag of
`validate_citation_url` and applies no validity marking.) -/
theorem validateAll_exception_boundary (work : WorkFn) (citations : List Citation)
    (order : List Nat) (hcover : ∀ i, i < citations.length → i ∈ order) :
    (validateAllCitations work citations order).length = citations.length ∧
    ∀ i, (h : i < citations.length) → ∀ e, work citations[i] = .error e →
      (validateAllCitations work citations order)[i]? = some citations[i] := by
  by_cases hemp : citations.isEmpty
  · rw [List.isEmpty_iff] at hemp
    subst hemp
    exact ⟨rfl, fun i h => absurd h (by simp)⟩
  · constructor
    · simp only [validateAllCitations, if_neg hemp]
      simp
    · intro i h e he
      have hc2 : validateSingleCitation work citations[i] = .ok citations[i] := by
        unfold validateSingleCitation
        rw [he]
      exact validateAll_getElem?_aux work citations order hemp i h (hcover i h) _ hc2

/-- C2 counterexample: the claim additionally asserts that the citation is
"marked invalid" at the unit boundary; in the code the unit returns the
citation object untouched and no validity marking exists anywhere in
`validate_all_citations`, so a previously-valid record comes back with its
`valid` marker still `true`, not `false`. -/
theorem c2_counterexample :
    validateAllCitations (fun _ => .error .exn)
        [⟨1, str "https://dead.example/", str "T", true⟩] [0]
      = [⟨1, str "https://dead.example/", str "T", true⟩] ∧
    (validateAllCitations (fun _ => .error .exn)
        [⟨1, str "https://dead.example/", str "T", true⟩] [0]).map Citation.valid
      ≠ [false] := by decide

theorem c2_witness :
    (validateAllCitations (fun _ => .error .exn)
        [⟨1, str "https://a.example/", str "T", true⟩] [0]).length = 1 ∧
    (validateAllCitations (fun _ => .error .exn)
        [⟨1, str "https://a.example/", str "T", true⟩] [0])[0]? =
      some ⟨1, str "https://a.example/", str "T", true⟩ := by
  have h := validateAll_exception_boundary (fun _ => .error .exn)
    [⟨1, str "https://a.example/", str "T", true⟩] [0]
    (by intro i hi; have hi2 : i < 1 := hi; interval_cases i; decide)
  exact ⟨h.1, h.2 0 (by decide) .exn rfl⟩

/-!  ## Claim C3: cache discipline of `_check_url_status` -/

theorem lookupS_insert_self (url : Str) (v : Bool × Str × Nat) (c : StatusCache) :
    lookupS url (insertS url v c) = some v := by
  simp [lookupS, insertS, List.find?]

/-- C3 amended: a call served from a fresh cache entry returns it without
any network request; a call that is not served from the cache and whose
probe obtains an HTTP response writes its outcome to the cache with the
current timestamp regardless of validity (the redirect-GET branch included,
unless the GET raises a non-timeout error); but a transport failure or
timeout of the probe is classified invalid and returned *without* writing
the cache, so an immediate second call probes the network again. -/
theorem checkUrlStatus_cache_discipline (o : NetOracle) (now : Nat)
    (cache : StatusCache) (url : Str) :
    (∀ v f ts, lookupS url cache = some (v, f, ts) →
      now - ts < (if v then cacheTTL else failedUrlTTL) →
      checkUrlStatus o now cache url = ⟨v, f, cache, 0⟩) ∧
    (∀ e, cacheFresh now cache url = false → o.head url = .err e →
      checkUrlStatus o now cache url = ⟨false, url, cache, 1⟩) ∧
    (∀ s f, cacheFresh now cache url = false → o.head url = .resp s f →
      (redirectStatuses.contains s = true → o.get f ≠ .err) →
      lookupS url (checkUrlStatus o now cache url).cache =
        some ((checkUrlStatus o now cache url).valid,
              (checkUrlStatus o now cache url).finalUrl, now)) := by
  have hprobe : cacheFresh now cache url = false →
      checkUrlStatus o now cache url = checkUrlStatusProbe o now cache url := by
    intro hf
    unfold checkUrlStatus
    unfold cacheFresh at hf
    cases hlk : lookupS url cache with
    | none => rfl
    | some e =>
      obtain ⟨v, f, ts⟩ := e
      rw [hlk] at hf
      simp only [decide_eq_false_iff_not] at hf
      simp [hlk, hf]
  refine ⟨?_, ?_, ?_⟩
  · intro v f ts hlk hfresh
    unfold checkUrlStatus
    simp [hlk, hfresh]
  · intro e hf hhead
    rw [hprobe hf]
    unfold checkUrlStatusProbe
    rw [hhead]
  · intro s f hf hhead hget
    rw [hprobe hf]
    unfold checkUrlStatusProbe
    simp only [hhead]
    by_cases h200 : s = 200
    · subst h200
      simp only [if_pos rfl]
      by_cases herr : isErrorPageUrl f
      · simp [herr, lookupS_insert_self]
      · simp [herr, lookupS_insert_self]
    · rw [if_neg h200]
      by_cases h404 : s = 404
      · subst h404
        simp [lookupS_insert_self]
      · rw [if_neg h404]
        by_cases hred : redirectStatuses.contains s
        · rw [if_pos hred]
          cases hgo : o.get f with
          | resp s2 g =>
            by_cases hg : s2 = 200 && !isErrorPageUrl g
            · simp [hg, lookupS_insert_self]
            · simp [hg, lookupS_insert_self]
          | timeout => simp [lookupS_insert_self]
          | err => exact absurd hgo (hget hred)
        · rw [if_neg hred]
          simp [lookupS_insert_self]

/-- A network where every HEAD probe raises a timeout. -/
def oTimeoutNet : NetOracle := ⟨fun _ => .err .timeout, fun _ => .err⟩

/-- A network where every HEAD probe answers 200 at a fixed page. -/
def oHead200 : NetOracle :=
  ⟨fun _ => .resp 200 (str "https://ok.example/page"), fun _ => .timeout⟩

/-- C3 counterexample: a probe timeout is classified invalid but *not*
written to the status cache, so a second call for the same URL only 30
seconds later (well inside the 60-second failed-result TTL) is not served
from the cache — it issues another network request, contradicting the
claim's "cached with the short failed-result TTL, so a second call … is
answered from the cache without a network call". -/
theorem c3_counterexample :
    (checkUrlStatus oTimeoutNet 0 [] (str "https://unreachable.example/")).valid
      = false ∧
    (checkUrlStatus oTimeoutNet 0 [] (str "https://unreachable.example/")).cache
      = [] ∧
    (checkUrlStatus oTimeoutNet 30
      (checkUrlStatus oTimeoutNet 0 [] (str "https://unreachable.example/")).cache
      (str "https://unreachable.example/")).net = 1 := by decide

theorem c3_witness :
    checkUrlStatus oHead200 5
        [(str "https://ok.example/page", (true, str "https://ok.example/page", 4))]
        (str "https://ok.example/page")
      = ⟨true, str "https://ok.example/page",
          [(str "https://ok.example/page", (true, str "https://ok.example/page", 4))], 0⟩ ∧
    checkUrlStatus oTimeoutNet 7 [] (str "https://dead.example/")
      = ⟨false, str "https://dead.example/", [], 1⟩ ∧
    lookupS (str "https://h.example/")
        (checkUrlStatus oHead200 9 [] (str "https://h.example/")).cache =
      some ((checkUrlStatus oHead200 9 [] (str "https://h.example/")).valid,
            (checkUrlStatus oHead200 9 [] (str "https://h.example/")).finalUrl, 9) := by
  refine ⟨?_, ?_, ?_⟩
  · exact (checkUrlStatus_cache_discipline oHead200 5 _ _).1 true
      (str "https://ok.example/page") 4 (by decide) (by decide)
  · exact (checkUrlStatus_cache_discipline oTimeoutNet 7 [] _).2.1 .timeout
      (by decide) rfl
  · exact (checkUrlStatus_cache_discipline oHead200 9 [] _).2.2 200
      (str "https://ok.example/page") (by decide) rfl (by decide)

/-!  ## Claim C4: when the authority-fallback cache is consulted -/

/-- C4 amended: the authority-fallback cache is consulted only inside
`_try_authority_fallback`, which `_find_alternative_url` reaches after the
assisted-search (Gemini) call has already been issued and has timed out or
failed; a fresh cache entry then short-circuits the authority probing (the
cached result is returned, no HTTP probe is made and neither cache
changes), but the Gemini call itself is not avoided. -/
theorem findAlternative_authority_cache (o : NetOracle) (now : Nat)
    (sc : StatusCache) (ac : AuthorityCache) (gem : GeminiOutcome)
    (title companyUrl : Str) (competitors : List Str)
    (res : Option (Str × Str)) (ts : Nat)
    (hgem : gem = .timeout ∨ gem = .failure)
    (hcache : lookupA ((buildSearchQuery title).take 100) ac = some (res, ts))
    (hfresh : now - ts < cacheTTL) :
    findAlternativeUrl o now sc ac gem title companyUrl competitors
      = ⟨res, sc, ac, 1, 0⟩ := by
  have hfb : tryAuthorityFallback o now sc ac (buildSearchQuery title)
      companyUrl competitors = ⟨res, sc, ac, 0⟩ := by
    unfold tryAuthorityFallback
    simp [hcache, hfresh]
  cases hgem with
  | inl h =>
    subst h
    simp only [findAlternativeUrl, hfb]
  | inr h =>
    subst h
    simp only [findAlternativeUrl, hfb]

/-- A Gemini response carrying a verified structured result. -/
def respVerifiedAlt : AssistResponse :=
  ⟨some ⟨some (str "https://alt.example/page"), some (str "Alt"), some true⟩,
   [], fun _ => none⟩

/-- A network that answers 200 for every URL at that same URL. -/
def oAlive : NetOracle := ⟨fun u => .resp 200 u, fun u => .resp 200 u⟩

/-- C4 counterexample: even with a fresh authority-fallback cache entry for
the query, `_find_alternative_url` issues the Gemini call (Tier 1) and
returns its result, not the cached one — the cache is not checked before
Tier 1. -/
theorem c4_counterexample :
    (findAlternativeUrl oAlive 10 []
        [(str "cached topic", (some (str "https://cached.example/", str "C"), 0))]
        (.ok respVerifiedAlt) (str "cached topic") [] []).geminiCalls = 1 ∧
    (findAlternativeUrl oAlive 10 []
        [(str "cached topic", (some (str "https://cached.example/", str "C"), 0))]
        (.ok respVerifiedAlt) (str "cached topic") [] []).result
      = some (str "https://alt.example/page", str "Alt") ∧
    (findAlternativeUrl oAlive 10 []
        [(str "cached topic", (some (str "https://cached.example/", str "C"), 0))]
        (.ok respVerifiedAlt) (str "cached topic") [] []).result
      ≠ some (str "https://cached.example/", str "C") := by decide

theorem c4_witness :
    findAlternativeUrl oAlive 10 []
        [(str "cached topic", (some (str "https://cached.example/", str "C"), 0))]
        .timeout (str "cached topic") [] []
      = ⟨some (str "https://cached.example/", str "C"), [],
          [(str "cached topic", (some (str "https://cached.example/", str "C"), 0))],
          1, 0⟩ :=
  findAlternative_authority_cache oAlive 10 []
    [(str "cached topic", (some (str "https://cached.example/", str "C"), 0))]
    .timeout (str "cached topic") [] []
    (some (str "https://cached.example/", str "C")) 0
    (Or.inl rfl) (by decide) (by decide)

/-!  ## Claim C8: acceptance discipline of the specific-page resolver -/

/-- C8 amended: a candidate returned by the site-constrained search is
accepted exactly when the parsed response is marked verified with a
nonempty url that itself passes the specific-page check.  Being on the same
domain as the original URL is requested in the search prompt but never
enforced on the result: a verified specific-page candidate on a different
domain is returned as-is. -/
theorem findSpecificPage_characterization (hasClient : Bool)
    (oracle : Str → Option SpecJson) (title domainUrl : Str) (u : Str) :
    findSpecificPageUrl hasClient oracle title domainUrl = some u ↔
      ∃ p, pyUrlparse domainUrl = .ok p ∧ hasClient = true ∧
        ∃ j, oracle (title ++ str " site:" ++ specificPageDomain domainUrl p)
            = some j ∧
          j.verified = some true ∧ j.url = some u ∧ u ≠ [] ∧
          isSpecificPageUrl u = true := by
  unfold findSpecificPageUrl
  cases hp : pyUrlparse domainUrl with
  | error e =>
    simp only []
    constructor
    · intro h
      cases h
    · rintro ⟨p, hpe, -⟩
      cases hpe
  | ok p =>
    simp only []
    cases hcl : hasClient with
    | false =>
      simp only [Bool.not_false, if_true]
      constructor
      · intro h
        cases h
      · rintro ⟨p2, -, hcl2, -⟩
        cases hcl2
    | true =>
      simp only [Bool.not_true, Bool.false_eq_true, if_false]
      cases ho : oracle (title ++ str " site:" ++ specificPageDomain domainUrl p) with
      | none =>
        simp only []
        constructor
        · intro h
          cases h
        · rintro ⟨p2, hpe, -, j, hj, -⟩
          injection hpe with hpe2
          subst hpe2
          rw [ho] at hj
          cases hj
      | some j =>
        obtain ⟨ju, jv⟩ := j
        simp only []
        constructor
        · intro h
          cases ju with
          | none => simp at h
          | some u0 =>
            cases jv with
            | none => simp at h
            | some b =>
              cases b with
              | false => simp at h
              | true =>
                by_cases hemp : u0.isEmpty
                · simp [hemp] at h
                · by_cases hsp : isSpecificPageUrl u0
                  · simp only [hemp, hsp] at h
                    simp at h
                    obtain ⟨-, hu⟩ := h
                    refine ⟨p, by simp, by simp, ⟨some u0, some true⟩, ho, by simp, ?_, ?_, ?_⟩
                    · show some u0 = some u
                      rw [hu]
                    · intro habs
                      rw [habs] at hu
                      rw [hu] at hemp
                      exact hemp rfl
                    · rw [← hu]
                      exact hsp
                  · simp [hemp, hsp] at h
        · rintro ⟨p2, hpe, -, j2, hj2, hver, hurl, hne, hsp⟩
          injection hpe with hpe2
          subst hpe2
          rw [ho] at hj2
          injection hj2 with hj3
          subst hj3
          simp only [] at hver hurl
          subst hver
          subst hurl
          have hemp : ¬u.isEmpty := by
            rw [List.isEmpty_iff]
            exact hne
          simp [hemp, hsp]

/-- An assisted-search collaborator that always reports a verified deep page
on `other.example`. -/
def specOracleOffDomain : Str → Option SpecJson :=
  fun _ => some ⟨some (str "https://other.example/deep/page"), some true⟩

/-- C8 counterexample: the site-constrained search for the domain-root URL
`https://acme.com/` returns a verified candidate on `other.example`; the
resolver accepts and returns it even though it is on a different domain
than the original URL — the same-domain requirement of the claim is never
enforced. -/
theorem c8_counterexample :
    findSpecificPageUrl true specOracleOffDomain (str "T") (str "https://acme.com/")
      = some (str "https://other.example/deep/page") ∧
    pyUrlparse (str "https://other.example/deep/page")
      = .ok ⟨str "https", str "other.example", str "/deep/page", [], [], []⟩ ∧
    pyUrlparse (str "https://acme.com/")
      = .ok ⟨str "https", str "acme.com", str "/", [], [], []⟩ ∧
    normalizeHostname (str "other.example") ≠ normalizeHostname (str "acme.com") := by
  decide

/-!  ## Claims C7, C9: the domain filter -/

/-- The claim's reading of hostname normalization: lower-case and strip a
leading `www.` (stated without the code's additional stripping of leading
dots). -/
def claimNormalizeHost (h : Str) : Str :=
  let l := pyLower h
  if (str "www.").isPrefixOf l then l.drop 4 else l

/-- The claim's match relation: the host equals the root or ends with
`"." + root`. -/
def claimHostMatch (host root : Str) : Bool :=
  host = root || ('.' :: root).isSuffixOf host

/-- The claim's treatment of a competitor entry: an entry lacking a URL
scheme is prefixed with `https://`. -/
def claimCompetitorUrl (comp : Str) : Str :=
  if (schemeSplit comp).1 ≠ [] then comp else str "https://" ++ comp

/-- The domain filter exactly as the claim words it: filtered iff the
normalized host equals or is a dot-boundary subdomain of a forbidden host,
the own-domain host, or a competitor host, with schemeless competitors
prefixed by `https://`. -/
def claimShouldFilter (url companyUrl : Str) (competitors : List Str) : Bool :=
  match pyUrlparse url with
  | .error _ => false
  | .ok p =>
    let host := claimNormalizeHost p.netloc
    forbiddenHosts.any (fun fh => claimHostMatch host fh)
    || (match pyUrlparse companyUrl with
        | .ok cp => claimHostMatch host (claimNormalizeHost cp.netloc)
        | .error _ => false)
    || competitors.any (fun comp =>
        match pyUrlparse (claimCompetitorUrl comp) with
        | .ok cp => claimHostMatch host (claimNormalizeHost cp.netloc)
        | .error _ => false)

/-- C7 counterexample: two inputs where the code and the claim disagree.
`https://sub.cloud.google.com/x` is a dot-boundary subdomain of the
forbidden host `cloud.google.com` — the claim filters it, but the code
compares forbidden hosts by equality only and lets it through.
`httpx.org` as a competitor entry lacks a scheme — the claim reads it as
`https://httpx.org`, filtering `https://httpx.org/a`, but the code keys the
prefixing on `startswith("http")`, parses `httpx.org` as scheme-less with
an empty host, and filters nothing. -/
theorem c7_counterexample :
    shouldFilterUrl (str "https://sub.cloud.google.com/x") [] [] = false ∧
    claimShouldFilter (str "https://sub.cloud.google.com/x") [] [] = true ∧
    shouldFilterUrl (str "https://httpx.org/a") [] [str "httpx.org"] = false ∧
    claimShouldFilter (str "https://httpx.org/a") [] [str "httpx.org"] = true := by
  decide

/-- C7 amended, spec side: filtered iff the normalized host (lower-cased,
leading dots then a leading `www.` stripped) *equals* a forbidden host, or
equals / is a dot-boundary subdomain of the own-domain host (when a company
URL is supplied) or of a competitor host, competitors being parsed as-is
when they start with the literal `"http"` and as `https://<entry>`
otherwise. -/
def FilterSpec (url companyUrl : Str) (competitors : List Str) : Prop :=
  ∃ p, pyUrlparse url = .ok p ∧
    (normalizeHostname p.netloc ∈ forbiddenHosts
     ∨ (companyUrl ≠ [] ∧ ∃ cp, pyUrlparse companyUrl = .ok cp ∧
         (normalizeHostname p.netloc = normalizeHostname cp.netloc
          ∨ isSubdomain (normalizeHostname p.netloc)
              (normalizeHostname cp.netloc) = true))
     ∨ (∃ comp ∈ competitors, ∃ cp, pyUrlparse (competitorUrl comp) = .ok cp ∧
         (normalizeHostname p.netloc = normalizeHostname cp.netloc
          ∨ isSubdomain (normalizeHostname p.netloc)
              (normalizeHostname cp.netloc) = true)))

theorem shouldFilterUrl_eq_true_iff (url companyUrl : Str)
    (competitors : List Str) :
    shouldFilterUrl url companyUrl competitors = true ↔
      shouldFilterUrlBody url companyUrl competitors = .ok true := by
  unfold shouldFilterUrl
  cases hb : shouldFilterUrlBody url companyUrl competitors with
  | error e => simp
  | ok b => cases b <;> simp

theorem competitorHost_ok (comp : Str) (cp : UrlParseResult)
    (hcp : pyUrlparse (competitorUrl comp) = .ok cp) :
    competitorHost comp = .ok (normalizeHostname cp.netloc) := by
  unfold competitorHost
  rw [hcp]
  rfl

theorem checkCompetitors_true_iff (host : Str) (comps : List Str)
    (h : ∀ comp ∈ comps, ∃ cp, pyUrlparse (competitorUrl comp) = .ok cp) :
    checkCompetitors host comps = .ok true ↔
      ∃ comp ∈ comps, ∃ cp, pyUrlparse (competitorUrl comp) = .ok cp ∧
        (host = normalizeHostname cp.netloc
         ∨ isSubdomain host (normalizeHostname cp.netloc) = true) := by
  induction comps with
  | nil => simp [checkCompetitors]
  | cons comp rest ih =>
    obtain ⟨cp, hcp⟩ := h comp (List.mem_cons_self comp rest)
    have hrest := ih (fun c hc => h c (List.mem_cons_of_mem comp hc))
    unfold checkCompetitors
    rw [competitorHost_ok comp cp hcp]
    by_cases hhit : host = normalizeHostname cp.netloc
        ∨ isSubdomain host (normalizeHostname cp.netloc) = true
    · have hcond : (decide (host = normalizeHostname cp.netloc)
          || isSubdomain host (normalizeHostname cp.netloc)) = true := by
        rcases hhit with h1 | h1
        · simp [h1]
        · simp [h1]
      simp only [Except.bind, bind]
      rw [if_pos hcond]
      simp only [pure, Except.pure]
      constructor
      · intro _
        exact ⟨comp, List.mem_cons_self comp rest, cp, hcp, hhit⟩
      · intro _
        trivial
    · have hcond : (decide (host = normalizeHostname cp.netloc)
          || isSubdomain host (normalizeHostname cp.netloc)) = false := by
        rw [Bool.or_eq_false_iff]
        constructor
        · rw [decide_eq_false_iff_not]
          intro h1
          exact hhit (Or.inl h1)
        · rw [Bool.eq_false_iff]
          intro h1
          exact hhit (Or.inr h1)
      simp only [Except.bind, bind]
      rw [if_neg (by rw [hcond]; exact Bool.false_ne_true)]
      rw [hrest]
      constructor
      · rintro ⟨c, hc, cp2, hcp2, hhit2⟩
        exact ⟨c, List.mem_cons_of_mem comp hc, cp2, hcp2, hhit2⟩
      · rintro ⟨c, hc, cp2, hcp2, hhit2⟩
        rcases List.mem_cons.mp hc with hceq | hcr
        · subst hceq
          rw [hcp] at hcp2
          injection hcp2 with hcp3
          subst hcp3
          exact absurd hhit2 hhit
        · exact ⟨c, hcr, cp2, hcp2, hhit2⟩

theorem boolHit_iff (host r : Str) :
    (decide (host = r) || isSubdomain host r) = true ↔
      (host = r ∨ isSubdomain host r = true) := by
  simp

/-- C7 amended: provided the company URL (when nonempty) and every
competitor entry parse without error, `_should_filter_url` returns true
exactly when the normalized host *equals* a forbidden host, or equals or is
a dot-boundary subdomain of the own-domain host or of a competitor host,
where a competitor entry is used as-is when it starts with the literal
`"http"` and prefixed with `https://` otherwise. -/
theorem shouldFilter_iff_spec (url companyUrl : Str) (competitors : List Str)
    (hcomp : companyUrl = [] ∨ ∃ cp, pyUrlparse companyUrl = .ok cp)
    (hcomps : ∀ comp ∈ competitors,
      ∃ cp, pyUrlparse (competitorUrl comp) = .ok cp) :
    shouldFilterUrl url companyUrl competitors = true ↔
      FilterSpec url companyUrl competitors := by
  rw [shouldFilterUrl_eq_true_iff]
  unfold FilterSpec
  cases hp : pyUrlparse url with
  | error e =>
    unfold shouldFilterUrlBody
    rw [hp]
    simp only [Except.bind, bind]
    constructor
    · intro h
      exact absurd h (by simp)
    · rintro ⟨p, hpe, -⟩
      cases hpe
  | ok p =>
    unfold shouldFilterUrlBody
    rw [hp]
    simp only [Except.bind, bind]
    constructor
    · intro h
      refine ⟨p, rfl, ?_⟩
      by_cases hforb : forbiddenHosts.contains (normalizeHostname p.netloc) = true
      · exact Or.inl (by simpa using hforb)
      · rw [if_neg hforb] at h
        by_cases hcu : companyUrl = []
        · rw [if_neg (by rw [hcu]; simp)] at h
          simp only [Except.bind, bind, pure, Except.pure] at h
          rw [if_neg (by simp)] at h
          rw [checkCompetitors_true_iff _ _ hcomps] at h
          exact Or.inr (Or.inr h)
        · obtain ⟨cp, hcp⟩ := hcomp.resolve_left hcu
          rw [if_pos hcu] at h
          rw [hcp] at h
          simp only [Except.bind, bind, pure, Except.pure] at h
          by_cases hhit : (decide (normalizeHostname p.netloc = normalizeHostname cp.netloc)
              || isSubdomain (normalizeHostname p.netloc) (normalizeHostname cp.netloc)) = true
          · exact Or.inr (Or.inl ⟨hcu, cp, hcp, (boolHit_iff _ _).mp hhit⟩)
          · rw [if_neg hhit] at h
            rw [checkCompetitors_true_iff _ _ hcomps] at h
            exact Or.inr (Or.inr h)
    · rintro ⟨p2, hpe, hdisj⟩
      injection hpe with hpe2
      subst hpe2
      by_cases hforb : forbiddenHosts.contains (normalizeHostname p.netloc) = true
      · rw [if_pos hforb]
        rfl
      · rw [if_neg hforb]
        rcases hdisj with hmem | ⟨hcu, cp, hcp, hhit⟩ | hcompHit
        · exact absurd (by simpa using hmem) hforb
        · rw [if_pos hcu, hcp]
          simp only [Except.bind, bind, pure, Except.pure]
          rw [if_pos ((boolHit_iff _ _).mpr hhit)]
        · by_cases hcu : companyUrl = []
          · rw [if_neg (by rw [hcu]; simp)]
            simp only [Except.bind, bind, pure, Except.pure]
            rw [if_neg (by simp)]
            exact (checkCompetitors_true_iff _ _ hcomps).mpr hcompHit
          · obtain ⟨cp, hcp⟩ := hcomp.resolve_left hcu
            rw [if_pos hcu, hcp]
            simp only [Except.bind, bind, pure, Except.pure]
            by_cases hhit : (decide (normalizeHostname p.netloc = normalizeHostname cp.netloc)
                || isSubdomain (normalizeHostname p.netloc) (normalizeHostname cp.netloc)) = true
            · rw [if_pos hhit]
            · rw [if_neg hhit]
              exact (checkCompetitors_true_iff _ _ hcomps).mpr hcompHit

theorem c7_witness :
    shouldFilterUrl (str "https://blog.acme.com/x") (str "https://acme.com") []
      = true ∧
    shouldFilterUrl (str "https://notacme.com") (str "https://acme.com") []
      = false := by
  constructor
  · exact (shouldFilter_iff_spec (str "https://blog.acme.com/x")
      (str "https://acme.com") []
      (Or.inr ⟨⟨str "https", str "acme.com", [], [], [], []⟩, by decide⟩)
      (by simp)).mpr
      ⟨⟨str "https", str "blog.acme.com", str "/x", [], [], []⟩, by decide,
        Or.inr (Or.inl ⟨by decide,
          ⟨str "https", str "acme.com", [], [], [], []⟩, by decide,
          Or.inr (by decide)⟩)⟩
  · have h := shouldFilter_iff_spec (str "https://notacme.com")
      (str "https://acme.com") []
      (Or.inr ⟨⟨str "https", str "acme.com", [], [], [], []⟩, by decide⟩)
      (by simp)
    rw [Bool.eq_false_iff]
    intro habs
    obtain ⟨q, hpp, hdisj⟩ := h.mp habs
    have hpv : pyUrlparse (str "https://notacme.com") =
        .ok ⟨str "https", str "notacme.com", [], [], [], []⟩ := by decide
    rw [hpv] at hpp
    injection hpp with hpp2
    subst hpp2
    rcases hdisj with hmem | ⟨-, cp, hcp, hhit⟩ | ⟨c, hc, -⟩
    · revert hmem
      decide
    · have hcpv : pyUrlparse (str "https://acme.com") =
          .ok ⟨str "https", str "acme.com", [], [], [], []⟩ := by decide
      rw [hcpv] at hcp
      injection hcp with hcp2
      subst hcp2
      revert hhit
      decide
    · exact absurd hc (List.not_mem_nil c)

theorem checkCompetitors_empty_host (comps : List Str)
    (hcomps : ∀ comp ∈ comps, ∀ cp, pyUrlparse (competitorUrl comp) = .ok cp →
      normalizeHostname cp.netloc ≠ []) :
    checkCompetitors [] comps ≠ .ok true := by
  induction comps with
  | nil => simp [checkCompetitors]
  | cons comp rest ih =>
    unfold checkCompetitors competitorHost
    cases hcp : pyUrlparse (competitorUrl comp) with
    | error e => simp [Except.bind, bind]
    | ok cp =>
      have hne := hcomps comp (List.mem_cons_self comp rest) cp hcp
      simp only [Except.bind, bind, pure, Except.pure]
      have hcond : (decide (([] : Str) = normalizeHostname cp.netloc)
          || isSubdomain [] (normalizeHostname cp.netloc)) = false := by
        rw [Bool.or_eq_false_iff]
        refine ⟨?_, ?_⟩
        · rw [decide_eq_false_iff_not]
          intro h1
          exact hne h1.symm
        · simp [isSubdomain]
      rw [if_neg (by rw [hcond]; exact Bool.false_ne_true)]
      exact ih (fun c hc => hcomps c (List.mem_cons_of_mem comp hc))

/-- C9 amended: the filter fails open on a URL whose parsed host normalizes
to empty (every malformed URL does) *provided* the exclusion set's own
entries yield nonempty normalized hosts — a nonempty company URL or a
competitor entry that itself parses to an empty host (e.g. a schemeless
company URL such as `"acme.com"`) matches the malformed URL's empty host
and makes the filter return true instead. -/
theorem filter_fail_open (url companyUrl : Str) (competitors : List Str)
    (hhost : ∀ p, pyUrlparse url = .ok p → normalizeHostname p.netloc = [])
    (hcompany : companyUrl ≠ [] → ∀ cp, pyUrlparse companyUrl = .ok cp →
      normalizeHostname cp.netloc ≠ [])
    (hcomps : ∀ comp ∈ competitors, ∀ cp, pyUrlparse (competitorUrl comp) = .ok cp →
      normalizeHostname cp.netloc ≠ []) :
    shouldFilterUrl url companyUrl competitors = false := by
  rw [Bool.eq_false_iff]
  intro habs
  have hbody := (shouldFilterUrl_eq_true_iff url companyUrl competitors).mp habs
  unfold shouldFilterUrlBody at hbody
  cases hp : pyUrlparse url with
  | error e =>
    rw [hp] at hbody
    simp [Except.bind, bind] at hbody
  | ok p =>
    rw [hp] at hbody
    have hh := hhost p hp
    simp only [Except.bind, bind] at hbody
    rw [hh] at hbody
    rw [if_neg (by decide)] at hbody
    by_cases hcu : companyUrl = []
    · rw [if_neg (by rw [hcu]; simp)] at hbody
      simp only [Except.bind, bind, pure, Except.pure] at hbody
      rw [if_neg (by simp)] at hbody
      exact checkCompetitors_empty_host competitors hcomps hbody
    · rw [if_pos hcu] at hbody
      cases hcp : pyUrlparse companyUrl with
      | error e =>
        rw [hcp] at hbody
        simp [Except.bind, bind] at hbody
      | ok cp =>
        rw [hcp] at hbody
        have hne := hcompany hcu cp hcp
        simp only [Except.bind, bind, pure, Except.pure] at hbody
        have hcond : (decide (([] : Str) = normalizeHostname cp.netloc)
            || isSubdomain [] (normalizeHostname cp.netloc)) = false := by
          rw [Bool.or_eq_false_iff]
          refine ⟨?_, ?_⟩
          · rw [decide_eq_false_iff_not]
            intro h1
            exact hne h1.symm
          · simp [isSubdomain]
        rw [if_neg (by rw [hcond]; exact Bool.false_ne_true)] at hbody
        exact checkCompetitors_empty_host competitors hcomps hbody

/-- C9 counterexample: with the exclusion set `{company_url = "acme.com"}`
(a company URL without a scheme, whose parsed netloc is empty) the
malformed URL `"not a url"` is *filtered*: its empty normalized host equals
the empty normalized company host, so the filter returns true, not false. -/
theorem c9_counterexample :
    shouldFilterUrl (str "not a url") (str "acme.com") [] = true := by decide

theorem c9_witness :
    shouldFilterUrl (str "not a url") (str "https://acme.com")
      [str "competitor.com"] = false := by
  apply filter_fail_open
  · intro p hp
    have hv : pyUrlparse (str "not a url")
        = .ok ⟨[], [], str "not a url", [], [], []⟩ := by decide
    rw [hv] at hp
    injection hp with h2
    subst h2
    decide
  · intro hne cp hcp
    have hv : pyUrlparse (str "https://acme.com")
        = .ok ⟨str "https", str "acme.com", [], [], [], []⟩ := by decide
    rw [hv] at hcp
    injection hcp with h2
    subst h2
    decide
  · intro comp hc cp hcp
    rcases List.mem_singleton.mp hc with rfl
    have hv : pyUrlparse (competitorUrl (str "competitor.com"))
        = .ok ⟨str "https", str "competitor.com", [], [], [], []⟩ := by decide
    rw [hv] at hcp
    injection hcp with h2
    subst h2
    decide

/-!  ## Claim C5: verified structured results must re-validate -/

/-- No cache entry vouches for `cu`: no stored *valid* outcome has `cu` as
its final URL. -/
def cacheAvoids (cu : Str) (cache : StatusCache) : Prop :=
  ∀ k v f ts, lookupS k cache = some (v, f, ts) → v = true → f ≠ cu

theorem lookupS_insert (k u : Str) (x : Bool × Str × Nat) (c : StatusCache) :
    lookupS k (insertS u x c) = if u = k then some x else lookupS k c := by
  unfold lookupS insertS
  by_cases h : u = k
  · subst h
    simp [List.find?]
  · rw [if_neg h]
    have hbeq : (u == k) = false := by
      rw [beq_eq_false_iff_ne]
      exact h
    simp [List.find?, hbeq]

theorem cacheAvoids_insert_false (cu u f : Str) (ts : Nat) (c : StatusCache)
    (hc : cacheAvoids cu c) :
    cacheAvoids cu (insertS u (false, f, ts) c) := by
  intro k v2 f2 ts2 hlk hv
  rw [lookupS_insert] at hlk
  by_cases h : u = k
  · rw [if_pos h] at hlk
    simp only [Option.some.injEq, Prod.mk.injEq] at hlk
    rw [← hlk.1] at hv
    exact absurd hv Bool.false_ne_true
  · rw [if_neg h] at hlk
    exact hc k v2 f2 ts2 hlk hv

theorem cacheAvoids_insert_true (cu u f : Str) (ts : Nat) (c : StatusCache)
    (hf : f ≠ cu) (hc : cacheAvoids cu c) :
    cacheAvoids cu (insertS u (true, f, ts) c) := by
  intro k v2 f2 ts2 hlk hv
  rw [lookupS_insert] at hlk
  by_cases h : u = k
  · rw [if_pos h] at hlk
    simp only [Option.some.injEq, Prod.mk.injEq] at hlk
    rw [← hlk.2.1]
    exact hf
  · rw [if_neg h] at hlk
    exact hc k v2 f2 ts2 hlk hv

theorem checkUrlStatusProbe_avoids (cu : Str) (o : NetOracle)
    (ho1 : ∀ u2 s f, o.head u2 = .resp s f → f ≠ cu)
    (ho2 : ∀ u2 s f, o.get u2 = .resp s f → f ≠ cu)
    (now : Nat) (cache : StatusCache) (u2 : Str) (hc : cacheAvoids cu cache) :
    ((checkUrlStatusProbe o now cache u2).valid = true →
      (checkUrlStatusProbe o now cache u2).finalUrl ≠ cu) ∧
    cacheAvoids cu (checkUrlStatusProbe o now cache u2).cache := by
  unfold checkUrlStatusProbe
  cases hh : o.head u2 with
  | err e => exact ⟨fun h => absurd h Bool.false_ne_true, hc⟩
  | resp s f =>
    simp only []
    by_cases h200 : s = 200
    · subst h200
      rw [if_pos rfl]
      by_cases herr : isErrorPageUrl f = true
      · rw [if_pos herr]
        exact ⟨fun h => absurd h Bool.false_ne_true,
          cacheAvoids_insert_false cu u2 f now cache hc⟩
      · rw [if_neg herr]
        exact ⟨fun _ => ho1 u2 200 f hh,
          cacheAvoids_insert_true cu u2 f now cache (ho1 u2 200 f hh) hc⟩
    · rw [if_neg h200]
      by_cases h404 : s = 404
      · subst h404
        rw [if_pos rfl]
        exact ⟨fun h => absurd h Bool.false_ne_true,
          cacheAvoids_insert_false cu u2 f now cache hc⟩
      · rw [if_neg h404]
        by_cases hred : redirectStatuses.contains s = true
        · rw [if_pos hred]
          cases hg : o.get f with
          | resp s2 g =>
            simp only []
            by_cases hok : (decide (s2 = 200) && !isErrorPageUrl g) = true
            · rw [if_pos hok]
              exact ⟨fun _ => ho2 f s2 g hg,
                cacheAvoids_insert_true cu u2 g now cache (ho2 f s2 g hg) hc⟩
            · rw [if_neg hok]
              exact ⟨fun h => absurd h Bool.false_ne_true,
                cacheAvoids_insert_false cu u2 g now cache hc⟩
          | timeout =>
            exact ⟨fun h => absurd h Bool.false_ne_true,
              cacheAvoids_insert_false cu u2 f now cache hc⟩
          | err => exact ⟨fun h => absurd h Bool.false_ne_true, hc⟩
        · rw [if_neg hred]
          exact ⟨fun h => absurd h Bool.false_ne_true,
            cacheAvoids_insert_false cu u2 f now cache hc⟩

theorem checkUrlStatus_avoids (cu : Str) (o : NetOracle)
    (ho1 : ∀ u2 s f, o.head u2 = .resp s f → f ≠ cu)
    (ho2 : ∀ u2 s f, o.get u2 = .resp s f → f ≠ cu)
    (now : Nat) (cache : StatusCache) (u2 : Str) (hc : cacheAvoids cu cache) :
    ((checkUrlStatus o now cache u2).valid = true →
      (checkUrlStatus o now cache u2).finalUrl ≠ cu) ∧
    cacheAvoids cu (checkUrlStatus o now cache u2).cache := by
  unfold checkUrlStatus
  cases hlk : lookupS u2 cache with
  | none => exact checkUrlStatusProbe_avoids cu o ho1 ho2 now cache u2 hc
  | some e =>
    obtain ⟨v, f, ts⟩ := e
    simp only []
    by_cases hfr : now - ts < (if v then cacheTTL else failedUrlTTL)
    · rw [if_pos hfr]
      exact ⟨fun hv => hc u2 v f ts hlk hv, hc⟩
    · rw [if_neg hfr]
      exact checkUrlStatusProbe_avoids cu o ho1 ho2 now cache u2 hc

theorem regexScan_avoids (cu : Str) (o : NetOracle)
    (ho1 : ∀ u2 s f, o.head u2 = .resp s f → f ≠ cu)
    (ho2 : ∀ u2 s f, o.get u2 = .resp s f → f ≠ cu)
    (now : Nat) (titleFor : Str → Option Str) (title companyUrl : Str)
    (competitors : List Str) :
    ∀ (urls : List Str) (sc : StatusCache) (n : Nat), cacheAvoids cu sc →
      ∀ r, (regexScan o now titleFor title companyUrl competitors urls sc n).1
          = some r → r.1 ≠ cu := by
  intro urls
  induction urls with
  | nil =>
    intro sc n hc r hr
    simp [regexScan] at hr
  | cons cand rest ih =>
    intro sc n hc r hr
    unfold regexScan at hr
    by_cases hemp : cand.isEmpty = true
    · rw [if_pos hemp] at hr
      exact ih sc n hc r hr
    · rw [if_neg hemp] at hr
      cases hn : normalizeUrl cand with
      | error e =>
        rw [hn] at hr
        simp at hr
      | ok cn =>
        rw [hn] at hr
        simp only [] at hr
        by_cases hfl : shouldFilterUrl cn companyUrl competitors = true
        · rw [if_pos hfl] at hr
          exact ih sc n hc r hr
        · rw [if_neg hfl] at hr
          have hck := checkUrlStatus_avoids cu o ho1 ho2 now sc cn hc
          by_cases hv : (checkUrlStatus o now sc cn).valid = true
          · rw [if_pos hv] at hr
            simp only [Option.some.injEq] at hr
            rw [← hr]
            exact hck.1 hv
          · rw [if_neg hv] at hr
            exact ih _ _ hck.2 r hr

/-- C5: a Tier-1 structured search result marked `verified:true` is accepted
only if its URL independently passes the domain filter and a URL status
re-check; when the re-check fails, the structured result is rejected — the
computation falls through to the raw-URL scan — and (for a network model in
which no probe reports the dead URL as a live final location, and no cache
entry vouches for it) no alternative with that URL is ever returned. -/
theorem structured_verified_needs_revalidation (o : NetOracle) (now : Nat)
    (sc : StatusCache) (ac : AuthorityCache) (resp : AssistResponse)
    (j : StructJson) (u cu : Str) (title companyUrl : Str)
    (competitors : List Str)
    (hj : resp.structured = some j)
    (hver : j.verified = some true)
    (hurl : j.url = some u)
    (hune : u ≠ [])
    (hnorm : normalizeUrl (pyStrip u) = .ok cu)
    (hdead : (checkUrlStatus o now sc cu).valid = false)
    (hc : cacheAvoids cu sc)
    (ho1 : ∀ u2 s f, o.head u2 = .resp s f → f ≠ cu)
    (ho2 : ∀ u2 s f, o.get u2 = .resp s f → f ≠ cu) :
    (∃ sc2 n2, structuredStep o now sc title companyUrl competitors
          resp.structured = .fallthrough sc2 n2 ∧
        (findAlternativeUrl o now sc ac (.ok resp) title companyUrl
            competitors).result
          = (regexScan o now resp.titleFor title companyUrl competitors
              resp.rawUrls sc2 n2).1) ∧
    ∀ t, (findAlternativeUrl o now sc ac (.ok resp) title companyUrl
        competitors).result ≠ some (cu, t) := by
  have hcond : (decide (j.verified = some true)
      && match j.url with | some u0 => !u0.isEmpty | none => false) = true := by
    rw [hver, hurl]
    simp [hune]
  have hstep : ∃ sc2 n2, structuredStep o now sc title companyUrl competitors
      resp.structured = .fallthrough sc2 n2 ∧ cacheAvoids cu sc2 := by
    rw [hj]
    unfold structuredStep
    simp only []
    rw [if_pos hcond, hurl]
    simp only [Option.getD_some]
    rw [hnorm]
    simp only []
    by_cases hfl : shouldFilterUrl cu companyUrl competitors = true
    · rw [if_pos hfl]
      exact ⟨sc, 0, rfl, hc⟩
    · rw [if_neg hfl]
      rw [if_neg (by rw [hdead]; exact Bool.false_ne_true)]
      exact ⟨(checkUrlStatus o now sc cu).cache, (checkUrlStatus o now sc cu).net,
        rfl, (checkUrlStatus_avoids cu o ho1 ho2 now sc cu hc).2⟩
  obtain ⟨sc2, n2, hstep2, hc2⟩ := hstep
  have hres : (findAlternativeUrl o now sc ac (.ok resp) title companyUrl
      competitors).result
      = (regexScan o now resp.titleFor title companyUrl competitors
          resp.rawUrls sc2 n2).1 := by
    simp only [findAlternativeUrl, hstep2]
  refine ⟨⟨sc2, n2, hstep2, hres⟩, ?_⟩
  intro t habs
  rw [hres] at habs
  exact regexScan_avoids cu o ho1 ho2 now resp.titleFor title companyUrl
    competitors resp.rawUrls sc2 n2 hc2 (cu, t) habs rfl

/-- A network on which every HEAD probe 404s at an unrelated location and
every GET times out. -/
def oDead : NetOracle :=
  ⟨fun _ => .resp 404 (str "https://gone.example/missing"), fun _ => .timeout⟩

/-- A Gemini response claiming a verified alternative that is in fact
dead, plus one raw URL token. -/
def respDead : AssistResponse :=
  ⟨some ⟨some (str "https://dead.example/page"), some (str "T"), some true⟩,
   [str "https://raw.example/a"], fun _ => none⟩

theorem c5_witness :
    (findAlternativeUrl oDead 0 [] [] (.ok respDead) (str "ai research") [] []).result
      ≠ some (str "https://dead.example/page", str "T") := by
  have h := structured_verified_needs_revalidation oDead 0 [] [] respDead
    ⟨some (str "https://dead.example/page"), some (str "T"), some true⟩
    (str "https://dead.example/page") (str "https://dead.example/page")
    (str "ai research") [] []
    rfl rfl rfl (by decide) (by decide) (by decide)
    (by intro k v f ts hlk hv; simp [lookupS] at hlk)
    (by intro u2 s f hh; injection hh with h1 h2; rw [← h2]; decide)
    (by intro u2 s f hh; exact nomatch hh)
  exact h.2 (str "T")

/-!  ## Claim C10: `_normalize_url` -/

/-- C10 counterexample: on the non-empty input `"a[b"` the function prepends
the default `https://` scheme, but the resulting netloc `a[b` has an
unmatched square bracket, so `urlparse` raises `ValueError` and
`_normalize_url` raises instead of returning a URL. -/
theorem c10_counterexample : normalizeUrl (str "a[b") = .error () := by decide

theorem splitFirst_fst_subset (sep : Char) (s : Str) :
    ∀ c ∈ (splitFirst sep s).1, c ∈ s := by
  unfold splitFirst
  by_cases h : s.contains sep
  · rw [if_pos h]
    exact fun c hc => List.takeWhile_subset _ hc
  · rw [if_neg h]
    exact fun c hc => hc

theorem splitFirst_snd_subset (sep : Char) (s : Str) :
    ∀ c ∈ (splitFirst sep s).2, c ∈ s := by
  unfold splitFirst
  by_cases h : s.contains sep
  · rw [if_pos h]
    exact fun c hc => List.dropWhile_subset _ (List.drop_subset 1 _ hc)
  · rw [if_neg h]
    intro c hc
    cases hc

theorem splitFirst_fst_ne_sep (sep : Char) (s : Str) :
    ∀ c ∈ (splitFirst sep s).1, c ≠ sep := by
  unfold splitFirst
  by_cases h : s.contains sep
  · rw [if_pos h]
    intro c hc
    have := List.mem_takeWhile_imp hc
    simpa using this
  · rw [if_neg h]
    intro c hc hceq
    subst hceq
    exact h (List.contains_iff_exists_mem_beq.mpr ⟨c, hc, by simp⟩)

theorem splitFirst_of_not_mem (sep : Char) (s : Str) (h : sep ∉ s) :
    splitFirst sep s = (s, []) := by
  unfold splitFirst
  rw [if_neg]
  intro hc
  obtain ⟨c, hc2, hbeq⟩ := List.contains_iff_exists_mem_beq.mp hc
  rw [beq_iff_eq] at hbeq
  subst hbeq
  exact h hc2

theorem takeWhile_append_of_all (p : Char → Bool) (A B : Str)
    (h : ∀ c ∈ A, p c = true) :
    (A ++ B).takeWhile p = A ++ B.takeWhile p := by
  induction A with
  | nil => simp
  | cons a t ih =>
    rw [List.cons_append, List.takeWhile_cons_of_pos (h a (List.mem_cons_self a t)),
      ih (fun c hc => h c (List.mem_cons_of_mem a hc)), List.cons_append]

theorem dropWhile_append_of_all (p : Char → Bool) (A B : Str)
    (h : ∀ c ∈ A, p c = true) :
    (A ++ B).dropWhile p = B.dropWhile p := by
  induction A with
  | nil => simp
  | cons a t ih =>
    rw [List.cons_append, List.dropWhile_cons_of_pos (h a (List.mem_cons_self a t)),
      ih (fun c hc => h c (List.mem_cons_of_mem a hc))]

theorem splitFirst_mark (sep : Char) (A B : Str) (h : ∀ c ∈ A, c ≠ sep) :
    splitFirst sep (A ++ sep :: B) = (A, B) := by
  unfold splitFirst
  rw [if_pos]
  · have h2 : ∀ c ∈ A, (fun c => c ≠ sep : Char → Bool) c = true := by
      intro c hc
      simpa using h c hc
    rw [takeWhile_append_of_all _ A (sep :: B) h2,
      dropWhile_append_of_all _ A (sep :: B) h2]
    rw [List.takeWhile_cons_of_neg (by simp), List.dropWhile_cons_of_neg (by simp)]
    simp
  · exact List.contains_iff_exists_mem_beq.mpr
      ⟨sep, by simp, by simp⟩

theorem splitOnP_piece_mem (p : Char → Bool) :
    ∀ (xs : Str), ∀ piece ∈ xs.splitOnP p, ∀ c ∈ piece, c ∈ xs ∧ p c = false := by
  intro xs
  induction xs with
  | nil =>
    intro piece hp c hc
    rw [List.splitOnP_nil] at hp
    rcases List.mem_singleton.mp hp with rfl
    cases hc
  | cons x t ih =>
    intro piece hp c hc
    rw [List.splitOnP_cons] at hp
    by_cases hx : p x = true
    · rw [if_pos hx] at hp
      rcases List.mem_cons.mp hp with rfl | hp2
      · cases hc
      · obtain ⟨h1, h2⟩ := ih piece hp2 c hc
        exact ⟨List.mem_cons_of_mem x h1, h2⟩
    · rw [if_neg hx] at hp
      cases hsp : t.splitOnP p with
      | nil => exact absurd hsp (List.splitOnP_ne_nil p t)
      | cons h0 rest =>
        rw [hsp] at hp
        simp only [List.modifyHead] at hp
        rcases List.mem_cons.mp hp with rfl | hp2
        · rcases List.mem_cons.mp hc with rfl | hc2
          · exact ⟨List.mem_cons_self c t, Bool.eq_false_iff.mpr hx⟩
          · obtain ⟨h1, h2⟩ := ih h0 (by rw [hsp]; exact List.mem_cons_self h0 rest) c hc2
            exact ⟨List.mem_cons_of_mem x h1, h2⟩
        · obtain ⟨h1, h2⟩ := ih piece (by rw [hsp]; exact List.mem_cons_of_mem h0 hp2) c hc
          exact ⟨List.mem_cons_of_mem x h1, h2⟩

theorem splitOn_piece_mem (sep : Char) (xs : Str) :
    ∀ piece ∈ xs.splitOn sep, ∀ c ∈ piece, c ∈ xs ∧ c ≠ sep := by
  intro piece hp c hc
  have h := splitOnP_piece_mem (· == sep) xs piece hp c hc
  refine ⟨h.1, ?_⟩
  have h2 := h.2
  simp at h2
  exact h2

theorem mem_of_mem_intersperse {α : Type} (s : α) :
    ∀ (L : List α) (l : α), l ∈ L.intersperse s → l = s ∨ l ∈ L := by
  intro L
  induction L with
  | nil =>
    intro l h
    cases h
  | cons x t ih =>
    intro l h
    cases t with
    | nil =>
      simp at h
      exact Or.inr (by simp [h])
    | cons y t2 =>
      rw [List.intersperse_cons_cons] at h
      rcases List.mem_cons.mp h with rfl | h2
      · exact Or.inr (List.mem_cons_self l _)
      · rcases List.mem_cons.mp h2 with rfl | h3
        · exact Or.inl rfl
        · rcases ih l h3 with h4 | h4
          · exact Or.inl h4
          · exact Or.inr (List.mem_cons_of_mem x h4)

theorem mem_intercalate_cases (sep : Char) (L : List Str) (c : Char)
    (h : c ∈ List.intercalate [sep] L) : c = sep ∨ ∃ piece ∈ L, c ∈ piece := by
  unfold List.intercalate at h
  obtain ⟨l, hl, hcl⟩ := List.mem_flatten.mp h
  rcases mem_of_mem_intersperse [sep] L l hl with rfl | h2
  · rcases List.mem_singleton.mp hcl with rfl
    exact Or.inl rfl
  · exact Or.inr ⟨l, h2, hcl⟩

theorem intercalate_ne_nil_of_head (sep : Char) (k0 : Str) (ks : List Str)
    (h : k0 ≠ []) : List.intercalate [sep] (k0 :: ks) ≠ [] := by
  unfold List.intercalate
  cases ks with
  | nil => simpa using h
  | cons k1 ks2 =>
    rw [List.intersperse_cons_cons]
    simp only [List.flatten_cons]
    intro habs
    rw [List.append_eq_nil] at habs
    exact h habs.1

theorem schemeSplit_http (t2 : Str) :
    schemeSplit (str "http://" ++ t2) = (str "http", str "//" ++ t2) := by
  unfold schemeSplit
  rw [show List.findIdx? (fun c => c = ':') (str "http://" ++ t2) = some 4 from rfl]
  simp only []
  rw [show (str "http://" ++ t2).take 1 = str "h" from rfl,
    show (str "http://" ++ t2).take 4 = str "http" from rfl,
    if_pos (by decide)]
  rw [show pyLower (str "http") = str "http" from rfl,
    show (str "http://" ++ t2).drop 5 = str "//" ++ t2 from rfl]

theorem schemeSplit_https (t2 : Str) :
    schemeSplit (str "https://" ++ t2) = (str "https", str "//" ++ t2) := by
  unfold schemeSplit
  rw [show List.findIdx? (fun c => c = ':') (str "https://" ++ t2) = some 5 from rfl]
  simp only []
  rw [show (str "https://" ++ t2).take 1 = str "h" from rfl,
    show (str "https://" ++ t2).take 5 = str "https" from rfl,
    if_pos (by decide)]
  rw [show pyLower (str "https") = str "https" from rfl,
    show (str "https://" ++ t2).drop 6 = str "//" ++ t2 from rfl]

/-- The tail of `pyUrlsplit` after a successful scheme split followed by
`//`: netloc, bracket check, fragment and query splitting. -/
def urlsplitTail (scheme t2 : Str) : Except Unit UrlSplitResult :=
  let nr := splitNetloc t2
  if (nr.1.contains '[' && !nr.1.contains ']')
      || (nr.1.contains ']' && !nr.1.contains '[') then .error ()
  else
    let fr := splitFirst '#' nr.2
    let qu := splitFirst '?' fr.1
    .ok ⟨scheme, nr.1, qu.1, qu.2, fr.2⟩

theorem pyUrlsplit_http_eq (t : Str) :
    pyUrlsplit (str "http://" ++ t)
      = urlsplitTail (str "http") (t.filter (fun c => !isUnsafeUrlChar c)) := by
  unfold pyUrlsplit urlsplitTail
  rw [show (str "http://" ++ t).filter (fun c => !isUnsafeUrlChar c)
    = str "http://" ++ t.filter (fun c => !isUnsafeUrlChar c) from rfl]
  simp only []
  rw [schemeSplit_http]
  simp only []
  rw [if_pos (show ((str "//").isPrefixOf
      (str "//" ++ t.filter (fun c => !isUnsafeUrlChar c))) = true by simp)]
  rw [show (str "//" ++ t.filter (fun c => !isUnsafeUrlChar c)).drop 2
    = t.filter (fun c => !isUnsafeUrlChar c) from rfl]

theorem pyUrlsplit_https_eq (t : Str) :
    pyUrlsplit (str "https://" ++ t)
      = urlsplitTail (str "https") (t.filter (fun c => !isUnsafeUrlChar c)) := by
  unfold pyUrlsplit urlsplitTail
  rw [show (str "https://" ++ t).filter (fun c => !isUnsafeUrlChar c)
    = str "https://" ++ t.filter (fun c => !isUnsafeUrlChar c) from rfl]
  simp only []
  rw [schemeSplit_https]
  simp only []
  rw [if_pos (show ((str "//").isPrefixOf
      (str "//" ++ t.filter (fun c => !isUnsafeUrlChar c))) = true by simp)]
  rw [show (str "//" ++ t.filter (fun c => !isUnsafeUrlChar c)).drop 2
    = t.filter (fun c => !isUnsafeUrlChar c) from rfl]

theorem urlsplitTail_eval (scheme netloc pathParams q2 frag : Str)
    (hnetGood : ∀ c ∈ netloc, (fun c => c ≠ '/' && c ≠ '?' && c ≠ '#' : Char → Bool) c = true)
    (hbr : ((netloc.contains '[' && !netloc.contains ']')
        || (netloc.contains ']' && !netloc.contains '[')) = false)
    (hpath : ∀ c ∈ pathParams, c ≠ '?' ∧ c ≠ '#')
    (hpathHead : pathParams = [] ∨ pathParams.head? = some '/')
    (hq2 : ∀ c ∈ q2, c ≠ '#') :
    urlsplitTail scheme (netloc ++ (pathParams
        ++ (if q2 ≠ [] then '?' :: q2 else [])
        ++ (if frag ≠ [] then '#' :: frag else [])))
      = .ok ⟨scheme, netloc, pathParams, q2, frag⟩ := by
  have hrest : ∀ X : Str, (X = [] ∨ X.head? = some '/' ∨ X.head? = some '?'
      ∨ X.head? = some '#') →
      splitNetloc (netloc ++ X) = (netloc, X) := by
    intro X hX
    unfold splitNetloc
    rw [takeWhile_append_of_all _ netloc X hnetGood,
      dropWhile_append_of_all _ netloc X hnetGood]
    rcases hX with rfl | hX | hX | hX
    · simp
    all_goals {
      cases X with
      | nil => simp at hX
      | cons c R =>
        simp only [List.head?_cons, Option.some.injEq] at hX
        subst hX
        rw [List.takeWhile_cons_of_neg (by decide),
          List.dropWhile_cons_of_neg (by decide)]
        simp
    }
  set Q : Str := if q2 ≠ [] then '?' :: q2 else [] with hQ
  set F : Str := if frag ≠ [] then '#' :: frag else [] with hF
  have hXhead : pathParams ++ Q ++ F = [] ∨ (pathParams ++ Q ++ F).head? = some '/'
      ∨ (pathParams ++ Q ++ F).head? = some '?'
      ∨ (pathParams ++ Q ++ F).head? = some '#' := by
    rcases hpathHead with hp0 | hp0
    · subst hp0
      rw [List.nil_append]
      by_cases hq : q2 = []
      · rw [hQ]
        simp only [hq, ne_eq, not_true_eq_false, if_false, List.nil_append]
        by_cases hf : frag = []
        · rw [hF]
          simp [hf]
        · rw [hF]
          simp [hf]
      · rw [hQ]
        simp [hq]
    · cases pathParams with
      | nil => simp at hp0
      | cons c R =>
        simp only [List.head?_cons, Option.some.injEq] at hp0
        subst hp0
        simp
  unfold urlsplitTail
  rw [hrest _ hXhead]
  simp only []
  rw [hbr]
  simp only [Bool.false_eq_true, if_false]
  have hnoHashPathQ : ∀ c ∈ pathParams ++ Q, c ≠ '#' := by
    intro c hc
    rcases List.mem_append.mp hc with h1 | h1
    · exact (hpath c h1).2
    · rw [hQ] at h1
      by_cases hq : q2 = []
      · simp [hq] at h1
      · simp only [hq, ne_eq, not_false_eq_true, if_true] at h1
        rcases List.mem_cons.mp h1 with rfl | h2
        · decide
        · exact hq2 c h2
  have hfr : splitFirst '#' (pathParams ++ Q ++ F) = (pathParams ++ Q, frag) := by
    rw [hF]
    by_cases hf : frag = []
    · simp only [hf, ne_eq, not_true_eq_false, if_false, List.append_nil]
      rw [splitFirst_of_not_mem _ _ (fun hmem => (hnoHashPathQ '#' hmem) rfl)]
    · simp only [hf, ne_eq, not_false_eq_true, if_true]
      exact splitFirst_mark '#' (pathParams ++ Q) frag hnoHashPathQ
  rw [hfr]
  simp only []
  have hqu : splitFirst '?' (pathParams ++ Q) = (pathParams, q2) := by
    rw [hQ]
    by_cases hq : q2 = []
    · simp only [hq, ne_eq, not_true_eq_false, if_false, List.append_nil]
      rw [splitFirst_of_not_mem _ _ (fun hmem => (hpath '?' hmem).1 rfl)]
    · simp only [hq, ne_eq, not_false_eq_true, if_true]
      exact splitFirst_mark '?' pathParams q2 (fun c hc => (hpath c hc).1)
  rw [hqu]

theorem pyUrlunparse_form (scheme netloc path params q2 frag : Str)
    (hok : netloc ≠ []
      ∨ (usesNetloc.contains scheme = true
        ∧ (str "//").isPrefixOf
            (if params ≠ [] then path ++ ';' :: params else path) = false))
    (hs_ne : scheme ≠ [])
    (hjoinHead : (if params ≠ [] then path ++ ';' :: params else path) = []
      ∨ (if params ≠ [] then path ++ ';' :: params else path).head? = some '/') :
    pyUrlunparse scheme netloc path params q2 frag
      = scheme ++ ':' :: '/' :: '/' :: (netloc
          ++ ((if params ≠ [] then path ++ ';' :: params else path)
            ++ ((if q2 ≠ [] then '?' :: q2 else [])
              ++ (if frag ≠ [] then '#' :: frag else [])))) := by
  simp only [pyUrlunparse]
  set joined := if params ≠ [] then path ++ ';' :: params else path with hjoined
  clear_value joined
  have hcond : (decide (netloc ≠ [])
      || decide (scheme ≠ []) && usesNetloc.contains scheme
        && !List.isPrefixOf (str "//") joined) = true := by
    rcases hok with hn | ⟨hc, hpre⟩
    · simp [hn]
    · have hm : scheme ∈ usesNetloc := by simpa using hc
      simp [hs_ne, hc, hpre, hm]
  have hins : (if (decide (joined ≠ []) && !List.isPrefixOf (str "/") joined) = true
      then '/' :: joined else joined) = joined := by
    rcases hjoinHead with h0 | h0
    · simp [h0]
    · cases joined with
      | nil => simp at h0
      | cons c R =>
        simp only [List.head?_cons, Option.some.injEq] at h0
        subst h0
        have ht : List.isPrefixOf (str "/") ('/' :: R) = true :=
          List.isPrefixOf_iff_prefix.mpr ⟨R, rfl⟩
        simp [ht]
  rw [if_pos hcond, hins, if_pos hs_ne]
  have h2 : str "//" = ['/', '/'] := rfl
  by_cases hq : q2 = [] <;> by_cases hf : frag = [] <;>
    simp [hq, hf, h2, List.append_assoc]

theorem pyUrlunparse_keep (scheme path params q2 frag : Str)
    (hpre : (str "//").isPrefixOf
        (if params ≠ [] then path ++ ';' :: params else path) = true)
    (hs_ne : scheme ≠ []) :
    pyUrlunparse scheme [] path params q2 frag
      = scheme ++ ':' :: ((if params ≠ [] then path ++ ';' :: params else path)
          ++ ((if q2 ≠ [] then '?' :: q2 else [])
            ++ (if frag ≠ [] then '#' :: frag else []))) := by
  simp only [pyUrlunparse]
  set joined := if params ≠ [] then path ++ ';' :: params else path with hjoined
  clear_value joined
  have hcondN : ¬((decide (([] : Str) ≠ [])
      || decide (scheme ≠ []) && usesNetloc.contains scheme
        && !List.isPrefixOf (str "//") joined) = true) := by
    simp [hpre]
  rw [if_neg hcondN, if_pos hs_ne]
  by_cases hq : q2 = [] <;> by_cases hf : frag = [] <;>
    simp [hq, hf, List.append_assoc]

theorem pyUrlsplit_pyUrlunparse (scheme netloc path params q2 frag : Str)
    (hs : scheme = str "http" ∨ scheme = str "https")
    (hok : netloc ≠ []
      ∨ (str "//").isPrefixOf
          (if params ≠ [] then path ++ ';' :: params else path) = false)
    (hnetGood : ∀ c ∈ netloc,
      (fun c => c ≠ '/' && c ≠ '?' && c ≠ '#' : Char → Bool) c = true)
    (hbr : ((netloc.contains '[' && !netloc.contains ']')
        || (netloc.contains ']' && !netloc.contains '[')) = false)
    (hpath : ∀ c ∈ (if params ≠ [] then path ++ ';' :: params else path),
      c ≠ '?' ∧ c ≠ '#')
    (hjoinHead : (if params ≠ [] then path ++ ';' :: params else path) = []
      ∨ (if params ≠ [] then path ++ ';' :: params else path).head? = some '/')
    (hq2 : ∀ c ∈ q2, c ≠ '#')
    (hUnet : ∀ c ∈ netloc, isUnsafeUrlChar c = false)
    (hUpath : ∀ c ∈ (if params ≠ [] then path ++ ';' :: params else path),
      isUnsafeUrlChar c = false)
    (hUq2 : ∀ c ∈ q2, isUnsafeUrlChar c = false)
    (hUfrag : ∀ c ∈ frag, isUnsafeUrlChar c = false) :
    pyUrlsplit (pyUrlunparse scheme netloc path params q2 frag)
      = .ok ⟨scheme, netloc,
          (if params ≠ [] then path ++ ';' :: params else path), q2, frag⟩ := by
  have hs_ne : scheme ≠ [] := by
    rcases hs with rfl | rfl <;> decide
  have hcontains : usesNetloc.contains scheme = true := by
    rcases hs with rfl | rfl <;> decide
  rw [pyUrlunparse_form scheme netloc path params q2 frag
    (hok.imp id (fun h => ⟨hcontains, h⟩)) hs_ne hjoinHead]
  set joined := if params ≠ [] then path ++ ';' :: params else path with hjoined
  set Q : Str := if q2 ≠ [] then '?' :: q2 else [] with hQ
  set F : Str := if frag ≠ [] then '#' :: frag else [] with hF
  have hall : ∀ c ∈ netloc ++ (joined ++ (Q ++ F)),
      (fun c => !isUnsafeUrlChar c) c = true := by
    intro c hc
    simp only [Bool.not_eq_true']
    rcases List.mem_append.mp hc with h1 | h1
    · exact hUnet c h1
    rcases List.mem_append.mp h1 with h2 | h2
    · exact hUpath c h2
    rcases List.mem_append.mp h2 with h3 | h3
    · rw [hQ] at h3
      by_cases hq : q2 = []
      · simp [hq] at h3
      · simp only [hq, ne_eq, not_false_eq_true, if_true] at h3
        rcases List.mem_cons.mp h3 with rfl | h4
        · decide
        · exact hUq2 c h4
    · rw [hF] at h3
      by_cases hf : frag = []
      · simp [hf] at h3
      · simp only [hf, ne_eq, not_false_eq_true, if_true] at h3
        rcases List.mem_cons.mp h3 with rfl | h4
        · decide
        · exact hUfrag c h4
  have hassoc : netloc ++ (joined ++ (Q ++ F)) = netloc ++ (joined ++ Q ++ F) := by
    rw [List.append_assoc joined Q F]
  rcases hs with rfl | rfl
  · rw [show str "http" ++ ':' :: '/' :: '/' :: (netloc ++ (joined ++ (Q ++ F)))
        = str "http://" ++ (netloc ++ (joined ++ (Q ++ F))) from rfl]
    rw [pyUrlsplit_http_eq, List.filter_eq_self.mpr hall, hassoc]
    exact urlsplitTail_eval (str "http") netloc joined q2 frag hnetGood hbr hpath
      hjoinHead hq2
  · rw [show str "https" ++ ':' :: '/' :: '/' :: (netloc ++ (joined ++ (Q ++ F)))
        = str "https://" ++ (netloc ++ (joined ++ (Q ++ F))) from rfl]
    rw [pyUrlsplit_https_eq, List.filter_eq_self.mpr hall, hassoc]
    exact urlsplitTail_eval (str "https") netloc joined q2 frag hnetGood hbr hpath
      hjoinHead hq2

theorem splitFirst_fst_head (sep : Char) (s : Str) :
    (splitFirst sep s).1 = [] ∨ (splitFirst sep s).1.head? = s.head? := by
  unfold splitFirst
  by_cases h : s.contains sep = true
  · rw [if_pos h]
    cases s with
    | nil => exact Or.inl rfl
    | cons c R =>
      by_cases hc : c = sep
      · subst hc
        left
        rw [List.takeWhile_cons_of_neg (by simp)]
      · right
        rw [List.takeWhile_cons_of_pos (by simp [hc])]
        rfl
  · rw [if_neg h]
    exact Or.inr rfl

theorem dropWhile_head_cases (p : Char → Bool) (l : Str) :
    l.dropWhile p = [] ∨ ∃ c R, l.dropWhile p = c :: R ∧ p c = false := by
  induction l with
  | nil => exact Or.inl rfl
  | cons x t ih =>
    by_cases hx : p x = true
    · rw [List.dropWhile_cons_of_pos hx]
      exact ih
    · rw [List.dropWhile_cons_of_neg hx]
      exact Or.inr ⟨x, t, rfl, Bool.eq_false_iff.mpr hx⟩

theorem splitFirst_cons_sep (sep : Char) (R : Str) :
    splitFirst sep (sep :: R) = ([], R) := by
  unfold splitFirst
  rw [if_pos (List.contains_iff_exists_mem_beq.mpr ⟨sep, List.mem_cons_self _ _, by simp⟩)]
  rw [List.takeWhile_cons_of_neg (by simp), List.dropWhile_cons_of_neg (by simp)]
  simp

theorem urlsplitTail_anatomy (scheme t2 : Str) (s : UrlSplitResult)
    (h : urlsplitTail scheme t2 = .ok s)
    (ht2 : ∀ c ∈ t2, isUnsafeUrlChar c = false) :
    s.scheme = scheme
    ∧ (∀ c ∈ s.netloc,
        (fun c => c ≠ '/' && c ≠ '?' && c ≠ '#' : Char → Bool) c = true)
    ∧ ((s.netloc.contains '[' && !s.netloc.contains ']')
        || (s.netloc.contains ']' && !s.netloc.contains '[')) = false
    ∧ (∀ c ∈ s.path, c ≠ '?' ∧ c ≠ '#')
    ∧ (s.path = [] ∨ s.path.head? = some '/')
    ∧ (∀ c ∈ s.query, c ≠ '#')
    ∧ (∀ c ∈ s.netloc, isUnsafeUrlChar c = false)
    ∧ (∀ c ∈ s.path, isUnsafeUrlChar c = false)
    ∧ (∀ c ∈ s.query, isUnsafeUrlChar c = false)
    ∧ (∀ c ∈ s.fragment, isUnsafeUrlChar c = false) := by
  simp only [urlsplitTail] at h
  by_cases hbrc : (((splitNetloc t2).1.contains '[' && !(splitNetloc t2).1.contains ']')
      || ((splitNetloc t2).1.contains ']' && !(splitNetloc t2).1.contains '[')) = true
  · rw [if_pos hbrc] at h
    cases h
  · rw [if_neg hbrc] at h
    injection h with h2
    subst h2
    have hmemNL : ∀ c ∈ (splitNetloc t2).1, c ∈ t2 :=
      fun c hc => List.takeWhile_subset _ hc
    have hmemREST : ∀ c ∈ (splitNetloc t2).2, c ∈ t2 :=
      fun c hc => List.dropWhile_subset _ hc
    have hmemFR1 : ∀ c ∈ (splitFirst '#' (splitNetloc t2).2).1, c ∈ t2 :=
      fun c hc => hmemREST c (splitFirst_fst_subset '#' _ c hc)
    have hmemQU1 : ∀ c ∈ (splitFirst '?' (splitFirst '#' (splitNetloc t2).2).1).1, c ∈ t2 :=
      fun c hc => hmemFR1 c (splitFirst_fst_subset '?' _ c hc)
    have hmemQU2 : ∀ c ∈ (splitFirst '?' (splitFirst '#' (splitNetloc t2).2).1).2, c ∈ t2 :=
      fun c hc => hmemFR1 c (splitFirst_snd_subset '?' _ c hc)
    have hmemFR2 : ∀ c ∈ (splitFirst '#' (splitNetloc t2).2).2, c ∈ t2 :=
      fun c hc => hmemREST c (splitFirst_snd_subset '#' _ c hc)
    have hpathHead : (splitFirst '?' (splitFirst '#' ((splitNetloc t2).2)).1).1 = []
        ∨ (splitFirst '?' (splitFirst '#' ((splitNetloc t2).2)).1).1.head? = some '/' := by
      have hd : (splitNetloc t2).2
          = t2.dropWhile (fun c => c ≠ '/' && c ≠ '?' && c ≠ '#') := rfl
      rcases dropWhile_head_cases (fun c => c ≠ '/' && c ≠ '?' && c ≠ '#') t2 with
        hr | ⟨c0, R0, hr, hc0⟩
      · rw [hd, hr]
        exact Or.inl rfl
      · rw [hd, hr]
        have hc0' : c0 = '/' ∨ c0 = '?' ∨ c0 = '#' := by
          by_contra hcon
          push_neg at hcon
          rw [show ((c0 ≠ '/' && c0 ≠ '?' && c0 ≠ '#' : Bool)) = true by
            simp [hcon.1, hcon.2.1, hcon.2.2]] at hc0
          exact absurd hc0 (by decide)
        rcases hc0' with rfl | rfl | rfl
        · rcases splitFirst_fst_head '#' ('/' :: R0) with hf1 | hf1
          · rw [hf1]
            exact Or.inl rfl
          · rcases splitFirst_fst_head '?' ((splitFirst '#' ('/' :: R0)).1) with hq1 | hq1
            · exact Or.inl hq1
            · right
              rw [hq1, hf1]
              rfl
        · rcases splitFirst_fst_head '#' ('?' :: R0) with hf1 | hf1
          · rw [hf1]
            exact Or.inl rfl
          · left
            cases hfe : (splitFirst '#' ('?' :: R0)).1 with
            | nil => rfl
            | cons d D =>
              rw [hfe] at hf1
              simp only [List.head?_cons, Option.some.injEq] at hf1
              subst hf1
              rw [splitFirst_cons_sep]
        · left
          rw [splitFirst_cons_sep]
          rfl
    simp only []
    refine ⟨trivial, ?_, Bool.eq_false_iff.mpr hbrc, ?_, hpathHead, ?_, ?_, ?_, ?_, ?_⟩
    · intro c hc
      have hc2 : c ∈ List.takeWhile (fun c => c ≠ '/' && c ≠ '?' && c ≠ '#') t2 := hc
      have h3 := List.mem_takeWhile_imp hc2
      exact h3
    · intro c hc
      exact ⟨splitFirst_fst_ne_sep '?' _ c hc,
        splitFirst_fst_ne_sep '#' _ c (splitFirst_fst_subset '?' _ c hc)⟩
    · intro c hc
      exact splitFirst_fst_ne_sep '#' _ c (splitFirst_snd_subset '?' _ c hc)
    · exact fun c hc => ht2 c (hmemNL c hc)
    · exact fun c hc => ht2 c (hmemQU1 c hc)
    · exact fun c hc => ht2 c (hmemQU2 c hc)
    · exact fun c hc => ht2 c (hmemFR2 c hc)

theorem splitParams_anatomy (path : Str) :
    (splitParams path).1 <+: path
    ∧ ((splitParams path).2 ≠ []
        → (splitParams path).1 ++ ';' :: (splitParams path).2 = path)
    ∧ (∀ c ∈ (splitParams path).2, c ∈ path) := by
  simp only [splitParams]
  by_cases hsl : path.contains '/' = true
  · rw [if_pos hsl]
    set LS := path.length - 1 - path.reverse.findIdx (fun c => c = '/') with hLS
    by_cases htc : (path.drop LS).contains ';' = true
    · rw [if_pos htc]
      set j := (path.drop LS).findIdx (fun c => c = ';') with hj
      set i := LS + j with hi
      refine ⟨List.take_prefix _ _, ?_, fun c hc => List.drop_subset _ _ hc⟩
      intro hne
      have hnl : ¬ path.length ≤ i + 1 := fun hle => hne (List.drop_eq_nil_of_le hle)
      have hilt : i < path.length := by omega
      have hjlt : j < (path.drop LS).length := by
        obtain ⟨x, hx, hbx⟩ := List.contains_iff_exists_mem_beq.mp htc
        exact List.findIdx_lt_length_of_exists ⟨x, hx, by simp only [beq_iff_eq] at hbx; subst hbx; decide⟩
      have hget := List.findIdx_of_getElem?_eq_some (List.getElem?_eq_getElem hjlt)
      have hPi : path.get ⟨i, hilt⟩ = ';' := by
        have h6 : (path.drop LS).get ⟨j, hjlt⟩ = ';' := by simpa using hget
        rw [List.get_eq_getElem] at h6 ⊢
        rw [List.getElem_drop] at h6
        exact h6
      calc path.take i ++ ';' :: path.drop (i + 1)
          = path.take i ++ (path.get ⟨i, hilt⟩ :: path.drop (i + 1)) := by rw [hPi]
        _ = path.take i ++ path.drop i := by
            rw [List.get_eq_getElem, List.getElem_cons_drop]
        _ = path := List.take_append_drop i path
    · rw [if_neg htc]
      exact ⟨List.prefix_rfl, fun hne => absurd rfl hne,
        fun c hc => absurd hc (List.not_mem_nil c)⟩
  · rw [if_neg hsl]
    set i := path.findIdx (fun c => c = ';') with hi
    refine ⟨List.take_prefix _ _, ?_, fun c hc => List.drop_subset _ _ hc⟩
    intro hne
    have hnl : ¬ path.length ≤ i + 1 := fun hle => hne (List.drop_eq_nil_of_le hle)
    have hilt : i < path.length := by omega
    have hget := List.findIdx_of_getElem?_eq_some (List.getElem?_eq_getElem hilt)
    have hPi : path.get ⟨i, hilt⟩ = ';' := by simpa using hget
    calc path.take i ++ ';' :: path.drop (i + 1)
        = path.take i ++ (path.get ⟨i, hilt⟩ :: path.drop (i + 1)) := by rw [hPi]
      _ = path.take i ++ path.drop i := by
          rw [List.get_eq_getElem, List.getElem_cons_drop]
      _ = path := List.take_append_drop i path

theorem normalizeUrl_build (url0 : Str) (p : UrlParseResult)
    (hp0 : pyUrlparse (normalizeUrlPre url0) = .ok p)
    (hs : p.scheme = str "http" ∨ p.scheme = str "https")
    (hok : p.netloc ≠ []
      ∨ (str "//").isPrefixOf
          (if p.params ≠ [] then p.path ++ ';' :: p.params else p.path) = false)
    (hnetGood : ∀ c ∈ p.netloc,
      (fun c => c ≠ '/' && c ≠ '?' && c ≠ '#' : Char → Bool) c = true)
    (hbr : ((p.netloc.contains '[' && !p.netloc.contains ']')
        || (p.netloc.contains ']' && !p.netloc.contains '[')) = false)
    (hpathJ : ∀ c ∈ (if p.params ≠ [] then p.path ++ ';' :: p.params else p.path),
      c ≠ '?' ∧ c ≠ '#')
    (hjHead : (if p.params ≠ [] then p.path ++ ';' :: p.params else p.path) = []
      ∨ (if p.params ≠ [] then p.path ++ ';' :: p.params else p.path).head? = some '/')
    (hq : ∀ c ∈ p.query, c ≠ '#')
    (hUn : ∀ c ∈ p.netloc, isUnsafeUrlChar c = false)
    (hUp : ∀ c ∈ (if p.params ≠ [] then p.path ++ ';' :: p.params else p.path),
      isUnsafeUrlChar c = false)
    (hUq : ∀ c ∈ p.query, isUnsafeUrlChar c = false)
    (hUf : ∀ c ∈ p.fragment, isUnsafeUrlChar c = false) :
    ∃ r q2, normalizeUrl url0 = .ok r
      ∧ r = pyUrlunparse p.scheme p.netloc p.path p.params q2 p.fragment
      ∧ ((str "http://").isPrefixOf r || (str "https://").isPrefixOf r) = true
      ∧ pyUrlsplit r = .ok ⟨p.scheme, p.netloc,
          (if p.params ≠ [] then p.path ++ ';' :: p.params else p.path),
          q2, p.fragment⟩
      ∧ ∀ q ∈ splitOnChar '&' q2,
          ((str "utm_").isPrefixOf (pyLower q)
            || (str "gclid").isPrefixOf (pyLower q)
            || (str "fbclid").isPrefixOf (pyLower q)) = false := by
  have hs_ne : p.scheme ≠ [] := by
    rcases hs with h | h <;> rw [h] <;> decide
  have hcontains : usesNetloc.contains p.scheme = true := by
    rcases hs with h | h <;> rw [h] <;> decide
  have hokF : p.netloc ≠ []
      ∨ (usesNetloc.contains p.scheme = true
        ∧ (str "//").isPrefixOf
            (if p.params ≠ [] then p.path ++ ';' :: p.params else p.path) = false) :=
    hok.imp id (fun h => ⟨hcontains, h⟩)
  unfold normalizeUrl
  rw [hp0]
  simp only [Except.bind, bind]
  set keep := (splitOnChar '&' p.query).filter
    (fun q => q ≠ [] &&
      !((str "utm_").isPrefixOf (pyLower q)
        || (str "gclid").isPrefixOf (pyLower q)
        || (str "fbclid").isPrefixOf (pyLower q))) with hkeepDef
  by_cases hkeep : keep ≠ []
  · rw [if_pos hkeep]
    simp only [pure, Except.pure]
    have hq2chars : ∀ c ∈ List.intercalate (str "&") keep,
        c ≠ '#' ∧ isUnsafeUrlChar c = false := by
      intro c hc
      have hc2 : c ∈ List.intercalate ['&'] keep := hc
      rcases mem_intercalate_cases '&' keep c hc2 with rfl | ⟨piece, hpiece, hcp⟩
      · exact ⟨by decide, by decide⟩
      · have hpiece2 : piece ∈ splitOnChar '&' p.query := by
          rw [hkeepDef] at hpiece
          exact List.mem_of_mem_filter hpiece
        have hcq := splitOn_piece_mem '&' p.query piece hpiece2 c hcp
        exact ⟨hq c hcq.1, hUq c hcq.1⟩
    have hnosep : ∀ l ∈ keep, '&' ∉ l := by
      intro l hl hmem
      rw [hkeepDef] at hl
      exact (splitOn_piece_mem '&' p.query l (List.mem_of_mem_filter hl) '&' hmem).2 rfl
    have hresplit : splitOnChar '&' (List.intercalate (str "&") keep) = keep := by
      show (List.intercalate ['&'] keep).splitOn '&' = keep
      exact List.splitOn_intercalate keep '&' hnosep hkeep
    refine ⟨_, List.intercalate (str "&") keep, rfl, rfl, ?_, ?_, ?_⟩
    · rw [pyUrlunparse_form p.scheme p.netloc p.path p.params _ p.fragment hokF hs_ne hjHead]
      rcases hs with h | h
      · rw [h]
        rw [show ∀ X : Str, str "http" ++ ':' :: '/' :: '/' :: X = str "http://" ++ X
          from fun X => rfl]
        simp [List.isPrefixOf_iff_prefix, List.prefix_append]
      · rw [h]
        rw [show ∀ X : Str, str "https" ++ ':' :: '/' :: '/' :: X = str "https://" ++ X
          from fun X => rfl]
        simp [List.isPrefixOf_iff_prefix, List.prefix_append]
    · exact pyUrlsplit_pyUrlunparse p.scheme p.netloc p.path p.params _ p.fragment
        hs hok hnetGood hbr hpathJ hjHead (fun c hc => (hq2chars c hc).1)
        hUn hUp (fun c hc => (hq2chars c hc).2) hUf
    · intro qq hqq
      rw [hresplit, hkeepDef] at hqq
      have hpred := List.of_mem_filter hqq
      simp only [Bool.and_eq_true, Bool.not_eq_true'] at hpred
      exact hpred.2
  · rw [if_neg hkeep]
    simp only [pure, Except.pure]
    refine ⟨_, [], rfl, rfl, ?_, ?_, ?_⟩
    · rw [pyUrlunparse_form p.scheme p.netloc p.path p.params _ p.fragment hokF hs_ne hjHead]
      rcases hs with h | h
      · rw [h]
        rw [show ∀ X : Str, str "http" ++ ':' :: '/' :: '/' :: X = str "http://" ++ X
          from fun X => rfl]
        simp [List.isPrefixOf_iff_prefix, List.prefix_append]
      · rw [h]
        rw [show ∀ X : Str, str "https" ++ ':' :: '/' :: '/' :: X = str "https://" ++ X
          from fun X => rfl]
        simp [List.isPrefixOf_iff_prefix, List.prefix_append]
    · exact pyUrlsplit_pyUrlunparse p.scheme p.netloc p.path p.params [] p.fragment
        hs hok hnetGood hbr hpathJ hjHead (fun c hc => absurd hc (List.not_mem_nil c))
        hUn hUp (fun c hc => absurd hc (List.not_mem_nil c)) hUf
    · intro qq hqq
      have h0 : splitOnChar '&' ([] : Str) = [[]] := rfl
      rw [h0] at hqq
      have hqq2 : qq = [] := by simpa using hqq
      rw [hqq2]
      decide

theorem pyUrlparse_anatomy (u sch t : Str) (p : UrlParseResult)
    (hsp : pyUrlsplit u = urlsplitTail sch (t.filter (fun c => !isUnsafeUrlChar c)))
    (hp : pyUrlparse u = .ok p) :
    p.scheme = sch
    ∧ (∀ c ∈ p.netloc,
        (fun c => c ≠ '/' && c ≠ '?' && c ≠ '#' : Char → Bool) c = true)
    ∧ ((p.netloc.contains '[' && !p.netloc.contains ']')
        || (p.netloc.contains ']' && !p.netloc.contains '[')) = false
    ∧ (∀ c ∈ (if p.params ≠ [] then p.path ++ ';' :: p.params else p.path),
        c ≠ '?' ∧ c ≠ '#')
    ∧ ((if p.params ≠ [] then p.path ++ ';' :: p.params else p.path) = []
        ∨ (if p.params ≠ [] then p.path ++ ';' :: p.params else p.path).head?
            = some '/')
    ∧ (∀ c ∈ p.query, c ≠ '#')
    ∧ (∀ c ∈ p.netloc, isUnsafeUrlChar c = false)
    ∧ (∀ c ∈ (if p.params ≠ [] then p.path ++ ';' :: p.params else p.path),
        isUnsafeUrlChar c = false)
    ∧ (∀ c ∈ p.query, isUnsafeUrlChar c = false)
    ∧ (∀ c ∈ p.fragment, isUnsafeUrlChar c = false) := by
  set t2 := t.filter (fun c => !isUnsafeUrlChar c) with ht2def
  have ht2 : ∀ c ∈ t2, isUnsafeUrlChar c = false := by
    intro c hc
    rw [ht2def] at hc
    have h0 := (List.mem_filter.mp hc).2
    simpa using h0
  unfold pyUrlparse at hp
  rw [hsp] at hp
  cases hspl : urlsplitTail sch t2 with
  | error e =>
    rw [hspl] at hp
    simp [Except.bind, bind] at hp
  | ok s =>
    rw [hspl] at hp
    simp only [Except.bind, bind] at hp
    obtain ⟨hsc0, hnetG, hbr, hpathS, hheadS, hqS, hUn, hUp0, hUq0, hUf0⟩ :=
      urlsplitTail_anatomy sch t2 s hspl ht2
    by_cases hsc : s.path.contains ';' = true
    · rw [if_pos hsc] at hp
      simp only [pure, Except.pure] at hp
      injection hp with hp2
      subst hp2
      obtain ⟨hpre, hjoin, hmemP⟩ := splitParams_anatomy s.path
      simp only []
      have hjsub : ∀ c ∈ (if (splitParams s.path).2 ≠ []
          then (splitParams s.path).1 ++ ';' :: (splitParams s.path).2
          else (splitParams s.path).1), c ∈ s.path := by
        by_cases hpar : (splitParams s.path).2 ≠ []
        · rw [if_pos hpar, hjoin hpar]
          exact fun c hc => hc
        · rw [if_neg hpar]
          exact fun c hc => hpre.subset hc
      have hjhead : (if (splitParams s.path).2 ≠ []
          then (splitParams s.path).1 ++ ';' :: (splitParams s.path).2
          else (splitParams s.path).1) = []
          ∨ (if (splitParams s.path).2 ≠ []
          then (splitParams s.path).1 ++ ';' :: (splitParams s.path).2
          else (splitParams s.path).1).head? = some '/' := by
        rcases hheadS with hsp0 | hsp0
        · have hpar0 : (splitParams s.path).2 = [] := by
            rw [List.eq_nil_iff_forall_not_mem]
            intro c hc
            have h9 := hmemP c hc
            rw [hsp0] at h9
            cases h9
          rw [if_neg (by simp [hpar0])]
          left
          rw [hsp0]
          decide
        · by_cases hpar : (splitParams s.path).2 ≠ []
          · rw [if_pos hpar, hjoin hpar]
            exact Or.inr hsp0
          · rw [if_neg hpar]
            cases hfe : (splitParams s.path).1 with
            | nil => exact Or.inl rfl
            | cons d D =>
              right
              have hpre2 := hpre
              rw [hfe] at hpre2
              obtain ⟨u2, hu2⟩ := hpre2
              rw [← hu2] at hsp0
              simp only [List.cons_append, List.head?_cons, Option.some.injEq] at hsp0
              simp [hsp0]
      exact ⟨hsc0, hnetG, hbr, fun c hc => hpathS c (hjsub c hc), hjhead, hqS,
        hUn, fun c hc => hUp0 c (hjsub c hc), hUq0, hUf0⟩
    · rw [if_neg hsc] at hp
      simp only [pure, Except.pure] at hp
      injection hp with hp2
      subst hp2
      simp only []
      have hjeq : (if ([] : Str) ≠ [] then s.path ++ ';' :: ([] : Str) else s.path)
          = s.path := by simp
      rw [hjeq]
      exact ⟨hsc0, hnetG, hbr, hpathS, hheadS, hqS, hUn, hUp0, hUq0, hUf0⟩

theorem normalizeUrl_build_keep (url0 : Str) (p : UrlParseResult)
    (hp0 : pyUrlparse (normalizeUrlPre url0) = .ok p)
    (hs : p.scheme = str "http" ∨ p.scheme = str "https")
    (hnet : p.netloc = [])
    (hpre : (str "//").isPrefixOf
        (if p.params ≠ [] then p.path ++ ';' :: p.params else p.path) = true) :
    ∃ r q2, normalizeUrl url0 = .ok r
      ∧ r = pyUrlunparse p.scheme p.netloc p.path p.params q2 p.fragment
      ∧ ((str "http://").isPrefixOf r || (str "https://").isPrefixOf r) = true
      ∧ ∀ q ∈ splitOnChar '&' q2,
          ((str "utm_").isPrefixOf (pyLower q)
            || (str "gclid").isPrefixOf (pyLower q)
            || (str "fbclid").isPrefixOf (pyLower q)) = false := by
  have hs_ne : p.scheme ≠ [] := by
    rcases hs with h | h <;> rw [h] <;> decide
  obtain ⟨u, hu⟩ := List.isPrefixOf_iff_prefix.mp hpre
  unfold normalizeUrl
  rw [hp0]
  simp only [Except.bind, bind]
  set keep := (splitOnChar '&' p.query).filter
    (fun q => q ≠ [] &&
      !((str "utm_").isPrefixOf (pyLower q)
        || (str "gclid").isPrefixOf (pyLower q)
        || (str "fbclid").isPrefixOf (pyLower q))) with hkeepDef
  by_cases hkeep : keep ≠ []
  · rw [if_pos hkeep]
    simp only [pure, Except.pure]
    have hnosep : ∀ l ∈ keep, '&' ∉ l := by
      intro l hl hmem
      rw [hkeepDef] at hl
      exact (splitOn_piece_mem '&' p.query l (List.mem_of_mem_filter hl) '&' hmem).2 rfl
    have hresplit : splitOnChar '&' (List.intercalate (str "&") keep) = keep := by
      show (List.intercalate ['&'] keep).splitOn '&' = keep
      exact List.splitOn_intercalate keep '&' hnosep hkeep
    refine ⟨_, List.intercalate (str "&") keep, rfl, rfl, ?_, ?_⟩
    · rw [hnet, pyUrlunparse_keep p.scheme p.path p.params _ p.fragment hpre hs_ne]
      rw [← hu]
      rcases hs with h | h
      · rw [h]
        rw [show ∀ A B : Str, str "http" ++ ':' :: (str "//" ++ A ++ B)
          = str "http://" ++ (A ++ B) from fun A B => rfl]
        simp [List.isPrefixOf_iff_prefix, List.prefix_append]
      · rw [h]
        rw [show ∀ A B : Str, str "https" ++ ':' :: (str "//" ++ A ++ B)
          = str "https://" ++ (A ++ B) from fun A B => rfl]
        simp [List.isPrefixOf_iff_prefix, List.prefix_append]
    · intro qq hqq
      rw [hresplit, hkeepDef] at hqq
      have hpred := List.of_mem_filter hqq
      simp only [Bool.and_eq_true, Bool.not_eq_true'] at hpred
      exact hpred.2
  · rw [if_neg hkeep]
    simp only [pure, Except.pure]
    refine ⟨_, [], rfl, rfl, ?_, ?_⟩
    · rw [hnet, pyUrlunparse_keep p.scheme p.path p.params [] p.fragment hpre hs_ne]
      rw [← hu]
      rcases hs with h | h
      · rw [h]
        rw [show ∀ A B : Str, str "http" ++ ':' :: (str "//" ++ A ++ B)
          = str "http://" ++ (A ++ B) from fun A B => rfl]
        simp [List.isPrefixOf_iff_prefix, List.prefix_append]
      · rw [h]
        rw [show ∀ A B : Str, str "https" ++ ':' :: (str "//" ++ A ++ B)
          = str "https://" ++ (A ++ B) from fun A B => rfl]
        simp [List.isPrefixOf_iff_prefix, List.prefix_append]
    · intro qq hqq
      have h0 : splitOnChar '&' ([] : Str) = [[]] := rfl
      rw [h0] at hqq
      have hqq2 : qq = [] := by simpa using hqq
      rw [hqq2]
      decide

theorem normalizeUrl_assemble (url0 : Str) (p : UrlParseResult)
    (hp : pyUrlparse (normalizeUrlPre url0) = .ok p)
    (hs : p.scheme = str "http" ∨ p.scheme = str "https")
    (hnetGood : ∀ c ∈ p.netloc,
      (fun c => c ≠ '/' && c ≠ '?' && c ≠ '#' : Char → Bool) c = true)
    (hbr : ((p.netloc.contains '[' && !p.netloc.contains ']')
        || (p.netloc.contains ']' && !p.netloc.contains '[')) = false)
    (hpathJ : ∀ c ∈ (if p.params ≠ [] then p.path ++ ';' :: p.params else p.path),
      c ≠ '?' ∧ c ≠ '#')
    (hjHead : (if p.params ≠ [] then p.path ++ ';' :: p.params else p.path) = []
      ∨ (if p.params ≠ [] then p.path ++ ';' :: p.params else p.path).head? = some '/')
    (hq : ∀ c ∈ p.query, c ≠ '#')
    (hUn : ∀ c ∈ p.netloc, isUnsafeUrlChar c = false)
    (hUp : ∀ c ∈ (if p.params ≠ [] then p.path ++ ';' :: p.params else p.path),
      isUnsafeUrlChar c = false)
    (hUq : ∀ c ∈ p.query, isUnsafeUrlChar c = false)
    (hUf : ∀ c ∈ p.fragment, isUnsafeUrlChar c = false) :
    ∃ r q2, normalizeUrl url0 = .ok r
      ∧ r = pyUrlunparse p.scheme p.netloc p.path p.params q2 p.fragment
      ∧ ((str "http://").isPrefixOf r || (str "https://").isPrefixOf r) = true
      ∧ (∀ q ∈ splitOnChar '&' q2,
          ((str "utm_").isPrefixOf (pyLower q)
            || (str "gclid").isPrefixOf (pyLower q)
            || (str "fbclid").isPrefixOf (pyLower q)) = false)
      ∧ ((p.netloc ≠ []
            ∨ (str "//").isPrefixOf
                (if p.params ≠ [] then p.path ++ ';' :: p.params else p.path) = false)
          → pyUrlsplit r = .ok ⟨p.scheme, p.netloc,
              (if p.params ≠ [] then p.path ++ ';' :: p.params else p.path),
              q2, p.fragment⟩) := by
  by_cases hok : p.netloc ≠ []
      ∨ (str "//").isPrefixOf
          (if p.params ≠ [] then p.path ++ ';' :: p.params else p.path) = false
  · obtain ⟨r, q2, c1, c2, c3, c4, c5⟩ := normalizeUrl_build url0 p hp hs hok
      hnetGood hbr hpathJ hjHead hq hUn hUp hUq hUf
    exact ⟨r, q2, c1, c2, c3, c5, fun _ => c4⟩
  · have hnet : p.netloc = [] := by
      by_contra hn2
      exact hok (Or.inl hn2)
    have hpre : (str "//").isPrefixOf
        (if p.params ≠ [] then p.path ++ ';' :: p.params else p.path) = true := by
      by_cases hx : (str "//").isPrefixOf
          (if p.params ≠ [] then p.path ++ ';' :: p.params else p.path) = true
      · exact hx
      · exact absurd (Or.inr (Bool.eq_false_iff.mpr hx)) hok
    obtain ⟨r, q2, c1, c2, c3, c4⟩ := normalizeUrl_build_keep url0 p hp hs hnet hpre
    exact ⟨r, q2, c1, c2, c3, c4, fun hcontra => absurd hcontra hok⟩

/-- C10 (amended): whenever `urlparse` of the stripped, scheme-defaulted
input succeeds (it raises `ValueError` on a netloc with an unmatched square
bracket, so `_normalize_url` does not return on every non-empty input),
`_normalize_url` returns the `urlunparse` rebuild of the parsed components
with a query stripped of every `utm_`/`gclid`/`fbclid`-prefixed parameter;
the result always begins with `http://` or `https://` (CPython 3.11
`urlunsplit` keeps the `//` marker for netloc-using schemes), and whenever
the parsed netloc is nonempty — or the path does not itself begin with
`//` — re-splitting the result recovers the scheme, netloc, `;`-rejoined
path, cleaned query and fragment exactly. -/
theorem normalizeUrl_normalized (url0 : Str) (p : UrlParseResult)
    (hp : pyUrlparse (normalizeUrlPre url0) = .ok p) :
    ∃ r q2, normalizeUrl url0 = .ok r
      ∧ r = pyUrlunparse p.scheme p.netloc p.path p.params q2 p.fragment
      ∧ ((str "http://").isPrefixOf r || (str "https://").isPrefixOf r) = true
      ∧ (∀ q ∈ splitOnChar '&' q2,
          ((str "utm_").isPrefixOf (pyLower q)
            || (str "gclid").isPrefixOf (pyLower q)
            || (str "fbclid").isPrefixOf (pyLower q)) = false)
      ∧ ((p.netloc ≠ []
            ∨ (str "//").isPrefixOf
                (if p.params ≠ [] then p.path ++ ';' :: p.params else p.path) = false)
          → pyUrlsplit r = .ok ⟨p.scheme, p.netloc,
              (if p.params ≠ [] then p.path ++ ';' :: p.params else p.path),
              q2, p.fragment⟩) := by
  have hdec : (∃ t, normalizeUrlPre url0 = str "http://" ++ t)
      ∨ (∃ t, normalizeUrlPre url0 = str "https://" ++ t) := by
    unfold normalizeUrlPre
    by_cases h1 : ((str "http://").isPrefixOf (pyStrip url0)
        || (str "https://").isPrefixOf (pyStrip url0)) = true
    · rw [if_pos h1]
      by_cases h2 : (str "http://").isPrefixOf (pyStrip url0) = true
      · left
        obtain ⟨t, ht⟩ := List.isPrefixOf_iff_prefix.mp h2
        exact ⟨t, ht.symm⟩
      · rw [Bool.eq_false_iff.mpr h2, Bool.false_or] at h1
        right
        obtain ⟨t, ht⟩ := List.isPrefixOf_iff_prefix.mp h1
        exact ⟨t, ht.symm⟩
    · rw [if_neg h1]
      right
      exact ⟨pyStrip url0, rfl⟩
  rcases hdec with ⟨t, ht⟩ | ⟨t, ht⟩
  · have hsp : pyUrlsplit (normalizeUrlPre url0)
        = urlsplitTail (str "http") (t.filter (fun c => !isUnsafeUrlChar c)) := by
      rw [ht]
      exact pyUrlsplit_http_eq t
    obtain ⟨h1, h2, h3, h4, h5, h6, h7, h8, h9, h10⟩ :=
      pyUrlparse_anatomy (normalizeUrlPre url0) (str "http") t p hsp hp
    exact normalizeUrl_assemble url0 p hp (Or.inl h1) h2 h3 h4 h5 h6 h7 h8 h9 h10
  · have hsp : pyUrlsplit (normalizeUrlPre url0)
        = urlsplitTail (str "https") (t.filter (fun c => !isUnsafeUrlChar c)) := by
      rw [ht]
      exact pyUrlsplit_https_eq t
    obtain ⟨h1, h2, h3, h4, h5, h6, h7, h8, h9, h10⟩ :=
      pyUrlparse_anatomy (normalizeUrlPre url0) (str "https") t p hsp hp
    exact normalizeUrl_assemble url0 p hp (Or.inr h1) h2 h3 h4 h5 h6 h7 h8 h9 h10

theorem c10_witness :
    pyUrlparse (normalizeUrlPre (str "http://a.com/b?utm_source=1&x=2"))
      = .ok ⟨str "http", str "a.com", str "/b", [], str "utm_source=1&x=2", []⟩
    ∧ ∃ r q2, normalizeUrl (str "http://a.com/b?utm_source=1&x=2") = .ok r
      ∧ r = pyUrlunparse (str "http") (str "a.com") (str "/b") [] q2 []
      ∧ ((str "http://").isPrefixOf r || (str "https://").isPrefixOf r) = true
      ∧ (∀ q ∈ splitOnChar '&' q2,
          ((str "utm_").isPrefixOf (pyLower q)
            || (str "gclid").isPrefixOf (pyLower q)
            || (str "fbclid").isPrefixOf (pyLower q)) = false)
      ∧ (((str "a.com" : Str) ≠ []
            ∨ (str "//").isPrefixOf
                (if ([] : Str) ≠ [] then str "/b" ++ ';' :: ([] : Str)
                 else str "/b") = false)
          → pyUrlsplit r = .ok ⟨str "http", str "a.com",
              (if ([] : Str) ≠ [] then str "/b" ++ ';' :: ([] : Str) else str "/b"),
              q2, []⟩) :=
  ⟨by decide,
    normalizeUrl_normalized (str "http://a.com/b?utm_source=1&x=2")
      ⟨str "http", str "a.com", str "/b", [], str "utm_source=1&x=2", []⟩
      (by decide)⟩
